import Mathlib

/-!
# Verification development for the kafka client core

Shallow embedding of `client/client.go`, `producer/producer.go` and
`broker/pool.go`.

* Go maps are association lists without duplicate keys (`mapGet`, `mapSet`,
  `mapDel`).
* `*broker.B` pointers are handles `B` carrying an allocation number, so that
  two calls of `broker.New` never yield the same handle.
* Everything outside the repository (the network, `broker.New`, the `proto`
  codec, Go map iteration order, the connection pool library) is an oracle
  of the `World`; an oracle is asked with the I/O history so far, so its
  answers may change arbitrarily over time.
* Every external call is recorded in a ghost trace (newest event first).
-/

namespace Kafka

/-! ## Go maps -/

/-- Map read `m[k]` with the comma-ok result as an `Option`. -/
def mapGet {κ ν : Type} [DecidableEq κ] (k : κ) : List (κ × ν) → Option ν
  | [] => none
  | (k', v) :: m => if k' = k then some v else mapGet k m

/-- Map deletion `delete(m, k)`. -/
def mapDel {κ ν : Type} [DecidableEq κ] (k : κ) (m : List (κ × ν)) : List (κ × ν) :=
  m.filter (fun e => decide (e.1 ≠ k))

/-- Map write `m[k] = v`: any previous binding of `k` is replaced. -/
def mapSet {κ ν : Type} [DecidableEq κ] (k : κ) (v : ν) (m : List (κ × ν)) : List (κ × ν) :=
  (k, v) :: mapDel k m

/-- The values stored in a map. -/
def mapVals {κ ν : Type} (m : List (κ × ν)) : List ν :=
  m.map Prod.snd

/-! ## Data model -/

deriving instance DecidableEq for Except

/-- Byte slices (`[]byte`); the producer never looks inside them. -/
abbrev Bytes := List Nat

/-- The error values of the repository, `proto.ErrConn`, and any other error
an external call may return. -/
inductive Err where
  | topicNotFound
  | leaderNotFound
  | coordNotFound
  | noBrokerFound
  | produceFailed
  | noValidPartition
  | conn
  | other (code : Nat)
  deriving DecidableEq, Repr

/-- A `*broker.B`: `id` is the allocation number of the pointer, `addr` the
address it was built for (`cfg.Addr`). -/
structure B where
  id : Nat
  addr : String
  deriving DecidableEq, Repr

/-- Entry `proto.Broker` of a topic-metadata response. -/
structure BrokerInfo where
  NodeID : Int
  Host : String
  Port : Int
  deriving DecidableEq, Repr

/-- Entry of `PartitionMetadatas`. -/
structure PartitionMetadata where
  PartitionID : Int
  Leader : Int
  deriving DecidableEq, Repr

/-- Entry of `TopicMetadatas`. -/
structure TopicMetadata where
  TopicName : String
  PartitionMetadatas : List PartitionMetadata
  deriving DecidableEq, Repr

/-- The fields of `proto.TopicMetadataResponse` read by the client. -/
structure TopicMetadataResponse where
  Brokers : List BrokerInfo
  TopicMetadatas : List TopicMetadata
  deriving DecidableEq, Repr

/-- The field of `proto.ConsumerMetadataResponse` read by the client. -/
structure ConsumerMetadataResponse where
  CoordinatorID : Int
  deriving DecidableEq, Repr

/-- Entry of `OffsetInPartitions` in a produce response. -/
structure OffsetInPartition where
  ErrorCode : Int
  deriving DecidableEq, Repr

/-- Entry of a `proto.ProduceResponse`. -/
structure OffsetInTopic where
  OffsetInPartitions : List OffsetInPartition
  deriving DecidableEq, Repr

abbrev ProduceResponse := List OffsetInTopic

/-- The two call sites of `broker.New` in `client.go`. -/
inductive Site where
  | bootstrap
  | registry
  deriving DecidableEq, Repr

/-- External calls made by the client, as recorded in the ghost trace. -/
inductive Event where
  | brokerNew (site : Site) (addr : String) (res : Option B)
  | close (b : B)
  | doTopicMetadata (b : B) (topic : String)
  | doConsumerMetadata (b : B) (group : String)
  | doProduce (b : B) (topic : String) (partition : Int) (key value : Bytes)
  deriving DecidableEq, Repr

/-- Everything the client cannot decide by itself. Each oracle receives the
trace of the external calls made so far. -/
structure World where
  /-- whether `broker.New` succeeds for an address -/
  newOk : List Event → String → Bool
  /-- outcome of `Do` for a topic-metadata request -/
  topicMetadata : List Event → B → String → Except Err TopicMetadataResponse
  /-- outcome of `Do` for a consumer-metadata request -/
  consumerMetadata : List Event → B → String → Except Err ConsumerMetadataResponse
  /-- outcome of `Do` for a produce request -/
  produce : List Event → B → String → Int → Bytes → Bytes → Except Err ProduceResponse
  /-- which entry a `range` over the brokers map visits first -/
  pick : List Event → Nat

/-- The fields of `client.Config` used by the code (`BrokerConfig` is only a
template whose `Addr` is overwritten). -/
structure Config where
  Brokers : List String
  ClientID : String
  deriving DecidableEq, Repr

/-- The client `C`: its four maps and its configuration, together with two
ghost fields, the next pointer allocation number and the trace. -/
structure C where
  brokers : List (Int × B)
  topicPartitions : List (String × List Int)
  topicPartitionLeader : List ((String × Int) × B)
  groupCoordinator : List (String × B)
  config : Config
  nextId : Nat
  trace : List Event
  deriving DecidableEq, Repr

/-! ## client.go -/

/-- The constructor `New`: all maps empty. -/
def New (config : Config) : C :=
  { brokers := [], topicPartitions := [], topicPartitionLeader := [],
    groupCoordinator := [], config := config, nextId := 0, trace := [] }

/-- A call `broker.New(&cfg)` with `cfg.Addr = addr`: on success a fresh
handle is allocated. -/
def brokerNew (w : World) (site : Site) (addr : String) (c : C) : Option B × C :=
  if w.newOk c.trace addr then
    (some ⟨c.nextId, addr⟩,
      { c with nextId := c.nextId + 1,
               trace := Event.brokerNew site addr (some ⟨c.nextId, addr⟩) :: c.trace })
  else
    (none, { c with trace := Event.brokerNew site addr none :: c.trace })

/-- The loop of `getBootstrapBroker` over the remaining seed addresses. -/
def bootstrapLoop (w : World) : List String → C → Except Err B × C
  | [], c => (.error .noBrokerFound, c)
  | addr :: rest, c =>
    match brokerNew w .bootstrap addr c with
    | (some b, c1) => (.ok b, c1)
    | (none, c1) => bootstrapLoop w rest c1

def getBootstrapBroker (w : World) (c : C) : Except Err B × C :=
  bootstrapLoop w c.config.Brokers c

/-- The function `getAnyBroker`; the result is `(broker, needClosing)`. The
first entry visited by `range c.brokers` is chosen by the world. -/
def getAnyBroker (w : World) (c : C) : Except Err (B × Bool) × C :=
  match c.brokers with
  | e :: es => (.ok (((e :: es).getD (w.pick c.trace % (es.length + 1)) e).2, false), c)
  | [] =>
    match getBootstrapBroker w c with
    | (.error err, c1) => (.error err, c1)
    | (.ok b, c1) => (.ok (b, true), c1)

/-- The deferred `broker.Close()` of the two `get...Metadata` functions. -/
def closeIf (needClosing : Bool) (b : B) (c : C) : C :=
  if needClosing then { c with trace := Event.close b :: c.trace } else c

def getTopicMetadata (w : World) (topic : String) (c : C) :
    Except Err TopicMetadataResponse × C :=
  match getAnyBroker w c with
  | (.error err, c1) => (.error err, c1)
  | (.ok (broker, needClosing), c1) =>
    (w.topicMetadata c1.trace broker topic,
      closeIf needClosing broker
        { c1 with trace := Event.doTopicMetadata broker topic :: c1.trace })

def getConsumerMetadata (w : World) (consumerGroup : String) (c : C) :
    Except Err ConsumerMetadataResponse × C :=
  match getAnyBroker w c with
  | (.error err, c1) => (.error err, c1)
  | (.ok (broker, needClosing), c1) =>
    (w.consumerMetadata c1.trace broker consumerGroup,
      closeIf needClosing broker
        { c1 with trace := Event.doConsumerMetadata broker consumerGroup :: c1.trace })

/-- The address `fmt.Sprintf("%s:%d", b.Host, b.Port)`. -/
def brokerAddr (b : BrokerInfo) : String :=
  b.Host ++ ":" ++ toString b.Port

/-- First loop of `updateFromTopicMetadata`: register every broker of the
response whose node id is not yet in the registry; a failing `broker.New`
is skipped. -/
def registerBrokers (w : World) : List BrokerInfo → C → C
  | [], c => c
  | b :: rest, c =>
    match mapGet b.NodeID c.brokers with
    | some _ => registerBrokers w rest c
    | none =>
      match brokerNew w .registry (brokerAddr b) c with
      | (some broker, c1) =>
        registerBrokers w rest { c1 with brokers := mapSet b.NodeID broker c1.brokers }
      | (none, c1) => registerBrokers w rest c1

/-- Inner loop of `updateFromTopicMetadata` over the partitions of the
matching topic entry. -/
def setLeaders (topic : String) : List PartitionMetadata → C → C
  | [], c => c
  | pm :: rest, c =>
    match mapGet pm.Leader c.brokers with
    | some broker =>
      setLeaders topic rest
        { c with topicPartitionLeader :=
                   mapSet (topic, pm.PartitionID) broker c.topicPartitionLeader }
    | none => setLeaders topic rest c

/-- Second loop of `updateFromTopicMetadata`: the first entry named `topic`
fills the partition list and the leader map; `none` is the nil error. -/
def findTopic (topic : String) : List TopicMetadata → C → Option Err × C
  | [], c => (some .topicNotFound, c)
  | t :: rest, c =>
    if t.TopicName = topic then
      (none,
        { setLeaders topic t.PartitionMetadatas c with
          topicPartitions :=
            mapSet topic (t.PartitionMetadatas.map (·.PartitionID))
              (setLeaders topic t.PartitionMetadatas c).topicPartitions })
    else findTopic topic rest c

def updateFromTopicMetadata (w : World) (topic : String) (c : C) : Option Err × C :=
  match getTopicMetadata w topic c with
  | (.error err, c1) => (some err, c1)
  | (.ok m, c1) => findTopic topic m.TopicMetadatas (registerBrokers w m.Brokers c1)

def updateFromConsumerMetadata (w : World) (topic consumerGroup : String) (c : C) :
    Option Err × C :=
  match getConsumerMetadata w consumerGroup c with
  | (.error err, c1) => (some err, c1)
  | (.ok m, c1) =>
    match mapGet m.CoordinatorID c1.brokers with
    | some broker =>
      (none, { c1 with groupCoordinator := mapSet consumerGroup broker c1.groupCoordinator })
    | none =>
      match updateFromTopicMetadata w topic c1 with
      | (some err, c2) => (some err, c2)
      | (none, c2) =>
        match mapGet m.CoordinatorID c2.brokers with
        | some broker =>
          (none, { c2 with groupCoordinator := mapSet consumerGroup broker c2.groupCoordinator })
        | none => (some .coordNotFound, c2)

def Partitions (w : World) (topic : String) (c : C) : Except Err (List Int) × C :=
  match mapGet topic c.topicPartitions with
  | some partitions => (.ok partitions, c)
  | none =>
    match updateFromTopicMetadata w topic c with
    | (some err, c1) => (.error err, c1)
    | (none, c1) =>
      match mapGet topic c1.topicPartitions with
      | some partitions => (.ok partitions, c1)
      | none => (.error .topicNotFound, c1)

def Coordinator (w : World) (topic consumerGroup : String) (c : C) : Except Err B × C :=
  match mapGet consumerGroup c.groupCoordinator with
  | some coord => (.ok coord, c)
  | none =>
    match updateFromConsumerMetadata w topic consumerGroup c with
    | (some err, c1) => (.error err, c1)
    | (none, c1) =>
      match mapGet consumerGroup c1.groupCoordinator with
      | some coord => (.ok coord, c1)
      | none => (.error .coordNotFound, c1)

def Leader (w : World) (topic : String) (partition : Int) (c : C) : Except Err B × C :=
  match mapGet (topic, partition) c.topicPartitionLeader with
  | some leader => (.ok leader, c)
  | none =>
    match updateFromTopicMetadata w topic c with
    | (some err, c1) => (.error err, c1)
    | (none, c1) =>
      match mapGet (topic, partition) c1.topicPartitionLeader with
      | some leader => (.ok leader, c1)
      | none => (.error .leaderNotFound, c1)

/-- Modelled from the spec: `LeaderIsDown` is called by the producer but its
body is not in `client.go`; section 3 says it removes the cached leader entry
and does not close the handle. -/
def LeaderIsDown (topic : String) (partition : Int) (c : C) : C :=
  { c with topicPartitionLeader := mapDel (topic, partition) c.topicPartitionLeader }

/-! ## producer.go -/

/-- Calls made by `Produce`, recorded in the ghost call log of the producer. -/
inductive PCall where
  | partitions (topic : String)
  | add (topic : String) (partitions : List Int)
  | partition (key : Bytes)
  | delete (topic : String)
  | leader (topic : String) (partition : Int)
  | skip (partition : Int)
  | doProduce (leader : B) (topic : String) (partition : Int)
  | leaderIsDown (topic : String) (partition : Int)
  | warnCode (errCode : Int)
  | warnNoPartition
  deriving DecidableEq, Repr

/-- The partition selector used by `Produce`. Its code is not part of the
sources, so it is a parameter: `S` is the state of one `*partitioner`,
`new` builds the state for a partition list (`topicPartitioner.Add`), and
`count`, `partition`, `skip` are its three methods. -/
structure Partitioner (S : Type) where
  new : List Int → S
  count : S → Nat
  partition : S → Bytes → Except Err Int × S
  skip : S → Int → S

/-- The producer `P`: its client, the per-topic selectors and the ghost call
log (newest call first). -/
structure P (S : Type) where
  client : C
  topicPartitioner : List (String × S)
  calls : List PCall
  deriving DecidableEq, Repr

/-- Modelled from the spec: `topicPartitioner.Get` is not in the sources;
step 1 of section 4.4 obtains the cached selector of the topic, and the code
tests the result against nil. -/
abbrev topicPartitionerGet {S : Type} (topic : String) (m : List (String × S)) : Option S :=
  mapGet topic m

/-- Modelled from the spec: `topicPartitioner.Add` is not in the sources; step
1 of section 4.4 builds the selector of the topic from its partition list and
caches it. The result is the new selector and the new cache. -/
abbrev topicPartitionerAdd {S : Type} (sel : Partitioner S) (topic : String)
    (partitions : List Int) (m : List (String × S)) : S × List (String × S) :=
  (sel.new partitions, mapSet topic (sel.new partitions) m)

/-- Modelled from the spec: `topicPartitioner.Delete` is not in the sources;
step 2a of section 4.4 drops the cached selector of the topic. -/
abbrev topicPartitionerDelete {S : Type} (topic : String) (m : List (String × S)) :
    List (String × S) :=
  mapDel topic m

/-- The warnings logged for the non-zero acknowledgment codes of a produce
response, newest first. -/
def warnings (resp : ProduceResponse) : List PCall :=
  (((resp.map (·.OffsetInPartitions)).flatten.filter
    (fun o => decide (o.ErrorCode ≠ 0))).map (fun o => PCall.warnCode o.ErrorCode)).reverse

/-- The `for i := 0; i < partitioner.Count(); i++` loop of `Produce` from
iteration `i` on. `s` is the state of the selector the local variable
`partitioner` points to; it is stored back under `topic` when the function
leaves (the Go map holds the same pointer). The first argument bounds the
number of iterations; `none` means the bound was reached. -/
def produceLoop {S : Type} (w : World) (sel : Partitioner S) (topic : String)
    (key value : Bytes) : Nat → Nat → S → P S → Option (Option Err × P S)
  | 0, _, _, _ => none
  | fuel + 1, i, s, p =>
    if i < sel.count s then
      match sel.partition s key with
      | (.error _, _) =>
        some (some .produceFailed,
          { p with topicPartitioner := topicPartitionerDelete topic p.topicPartitioner,
                   calls := .warnNoPartition :: .delete topic :: .partition key :: p.calls })
      | (.ok partition, s1) =>
        match Leader w topic partition p.client with
        | (.error _, c1) =>
          produceLoop w sel topic key value fuel (i + 1) (sel.skip s1 partition)
            { p with client := c1,
                     calls := .skip partition :: .leader topic partition ::
                       .partition key :: p.calls }
        | (.ok leader, c1) =>
          match w.produce c1.trace leader topic partition key value with
          | .error err =>
            if err = .conn then
              some (some err,
                { client := LeaderIsDown topic partition
                    { c1 with trace :=
                        Event.doProduce leader topic partition key value :: c1.trace },
                  topicPartitioner := mapSet topic (sel.skip s1 partition) p.topicPartitioner,
                  calls := .leaderIsDown topic partition :: .skip partition ::
                    .doProduce leader topic partition :: .leader topic partition ::
                    .partition key :: p.calls })
            else
              some (some err,
                { client :=
                    { c1 with trace :=
                        Event.doProduce leader topic partition key value :: c1.trace },
                  topicPartitioner := mapSet topic s1 p.topicPartitioner,
                  calls := .doProduce leader topic partition :: .leader topic partition ::
                    .partition key :: p.calls })
          | .ok resp =>
            some (none,
              { client :=
                  { c1 with trace :=
                      Event.doProduce leader topic partition key value :: c1.trace },
                topicPartitioner := mapSet topic s1 p.topicPartitioner,
                calls := warnings resp ++ (.doProduce leader topic partition ::
                  .leader topic partition :: .partition key :: p.calls) })
    else
      some (some .produceFailed,
        { p with topicPartitioner := mapSet topic s p.topicPartitioner,
                 calls := .warnNoPartition :: p.calls })

/-- The function `Produce`, with a bound on the number of loop iterations. -/
def Produce {S : Type} (w : World) (sel : Partitioner S) (fuel : Nat) (topic : String)
    (key value : Bytes) (p : P S) : Option (Option Err × P S) :=
  match topicPartitionerGet topic p.topicPartitioner with
  | some s => produceLoop w sel topic key value fuel 0 s p
  | none =>
    match Partitions w topic p.client with
    | (.error err, c1) =>
      some (some err, { p with client := c1, calls := .partitions topic :: p.calls })
    | (.ok partitions, c1) =>
      produceLoop w sel topic key value fuel 0
        (topicPartitionerAdd sel topic partitions p.topicPartitioner).1
        { client := c1,
          topicPartitioner := (topicPartitionerAdd sel topic partitions p.topicPartitioner).2,
          calls := .add topic partitions :: .partitions topic :: p.calls }

/-! ## pool.go -/

/-- Calls made by a `PoolBroker` to the pool library, the connection and the
codec; pools and connections are named by allocation numbers. -/
inductive PoolEvent where
  | newChannelPool (initialCap maxCap : Int) (addr : String) (res : Option Nat)
  | get (pool : Nat) (res : Option Nat)
  | setWriteDeadline (conn : Nat) (ok : Bool)
  | send (conn : Nat) (ok : Bool)
  | setReadDeadline (conn : Nat) (ok : Bool)
  | receive (conn : Nat) (ok : Bool)
  | connClose (conn : Nat)
  | poolClose (pool : Nat)
  deriving DecidableEq, Repr

/-- Outcomes of the calls a `PoolBroker` makes; `none` is the nil error. Each
oracle receives the log of the calls made so far. -/
structure PoolWorld where
  newChannelPool : List PoolEvent → Int → Int → String → Option Err
  get : List PoolEvent → Nat → Option Err
  setWriteDeadline : List PoolEvent → Nat → Option Err
  send : List PoolEvent → Nat → Option Err
  setReadDeadline : List PoolEvent → Nat → Option Err
  receive : List PoolEvent → Nat → Option Err

/-- The struct `PoolBroker`; `p = none` is the nil pool, `log` is the ghost
call log (newest call first). `Timeout` is in seconds. -/
structure PoolBroker where
  Timeout : Nat
  MaxCap : Int
  addr : String
  p : Option Nat
  log : List PoolEvent
  deriving DecidableEq, Repr

def NewPoolBroker (addr : String) : PoolBroker :=
  { addr := addr, MaxCap := 10, Timeout := 30, p := none, log := [] }

/-- Lines 36 to 46 of `Do`: the pool is created when absent. The pool
library returns a nil pool together with an error, so `b.p` stays nil when the
creation fails. -/
def PoolBroker.ensurePool (w : PoolWorld) (b : PoolBroker) : Except Err Nat × PoolBroker :=
  match b.p with
  | some p => (.ok p, b)
  | none =>
    match w.newChannelPool b.log 0 b.MaxCap b.addr with
    | none =>
      (.ok b.log.length,
        { b with p := some b.log.length,
                 log := .newChannelPool 0 b.MaxCap b.addr (some b.log.length) :: b.log })
    | some err =>
      (.error err, { b with p := none,
                            log := .newChannelPool 0 b.MaxCap b.addr none :: b.log })

/-- Lines 53 to 65 of `Do`: the exchange over the acquired connection. -/
def PoolBroker.exchange (w : PoolWorld) (hasResp : Bool) (conn : Nat) (b : PoolBroker) :
    Option Err × PoolBroker :=
  match w.setWriteDeadline b.log conn with
  | some err => (some err, { b with log := .setWriteDeadline conn false :: b.log })
  | none =>
    match w.send (.setWriteDeadline conn true :: b.log) conn with
    | some err =>
      (some err, { b with log := .send conn false :: .setWriteDeadline conn true :: b.log })
    | none =>
      if hasResp then
        match w.setReadDeadline (.send conn true :: .setWriteDeadline conn true :: b.log)
            conn with
        | some err =>
          (some err,
            { b with log := .setReadDeadline conn false :: .send conn true ::
                       .setWriteDeadline conn true :: b.log })
        | none =>
          match w.receive (.setReadDeadline conn true :: .send conn true ::
              .setWriteDeadline conn true :: b.log) conn with
          | r =>
            (r, { b with log := PoolEvent.receive conn r.isNone ::
                           .setReadDeadline conn true :: .send conn true ::
                           .setWriteDeadline conn true :: b.log })
      else (none, { b with log := .send conn true :: .setWriteDeadline conn true :: b.log })

/-- The method `Do`; `hasResp = false` is the call with a nil response. -/
def PoolBroker.Do (w : PoolWorld) (hasResp : Bool) (b : PoolBroker) :
    Option Err × PoolBroker :=
  match PoolBroker.ensurePool w b with
  | (.error err, b1) => (some err, b1)
  | (.ok p, b1) =>
    match w.get b1.log p with
    | some err => (some err, { b1 with log := .get p none :: b1.log })
    | none =>
      match PoolBroker.exchange w hasResp b1.log.length
          { b1 with log := .get p (some b1.log.length) :: b1.log } with
      | (r, b2) => (r, { b2 with log := .connClose b1.log.length :: b2.log })

/-- The method `Close`. -/
def PoolBroker.Close (b : PoolBroker) : PoolBroker :=
  match b.p with
  | some p => { b with p := none, log := .poolClose p :: b.log }
  | none => b

/-! ## Auxiliary definitions used in statements -/

/-- The trace left by failed `broker.New` calls of `getBootstrapBroker` for
the addresses `addrs`, tried in list order (newest event first). -/
def bootFailures (addrs : List String) : List Event :=
  (addrs.map (fun a => Event.brokerNew .bootstrap a none)).reverse

/-- Number of topic-metadata requests recorded in a trace. -/
def topicRequests (tr : List Event) : Nat :=
  tr.countP (fun e => match e with
    | .doTopicMetadata _ _ => true
    | _ => false)

/-- A world in which `broker.New` always succeeds, every metadata request
fails with a connectivity error and every produce request is acknowledged. -/
def quietWorld : World :=
  { newOk := fun _ _ => true
    topicMetadata := fun _ _ _ => .error .conn
    consumerMetadata := fun _ _ _ => .error .conn
    produce := fun _ _ _ _ _ _ => .ok []
    pick := fun _ => 0 }

/-- A world in which `broker.New` fails for the address `a:1` only. -/
def seedWorld : World :=
  { quietWorld with newOk := fun _ addr => decide (addr ≠ "a:1") }

/-- Client configuration with the two seed addresses of the specification. -/
def seedConfig : Config :=
  { Brokers := ["a:1", "b:2"], ClientID := "client" }

/-- Registry-membership invariant: every handle stored in the leader map or
in the coordinator map is a value of the brokers registry. -/
def Inv (c : C) : Prop :=
  (∀ b, b ∈ mapVals c.topicPartitionLeader → b ∈ mapVals c.brokers) ∧
  (∀ b, b ∈ mapVals c.groupCoordinator → b ∈ mapVals c.brokers)

/-- Consistency of the allocation counter: every handle stored in one of the
maps was allocated before. -/
def Allocated (c : C) : Prop :=
  (∀ b, b ∈ mapVals c.brokers → b.id < c.nextId) ∧
  (∀ b, b ∈ mapVals c.topicPartitionLeader → b.id < c.nextId) ∧
  (∀ b, b ∈ mapVals c.groupCoordinator → b.id < c.nextId)

/-- The handle `b` is stored in none of the three handle maps. -/
def NotCached (b : B) (c : C) : Prop :=
  b ∉ mapVals c.brokers ∧ b ∉ mapVals c.topicPartitionLeader ∧
    b ∉ mapVals c.groupCoordinator

/-- What every client operation guarantees between its entry state `c` and
its exit state `c1`. -/
structure Step (c c1 : C) : Prop where
  next_le : c.nextId ≤ c1.nextId
  inv : Inv c → Inv c1
  alloc : Allocated c → Allocated c1
  keep : ∀ b : B, b.id < c.nextId → NotCached b c → NotCached b c1
  boot : ∃ evs, c1.trace = evs ++ c.trace ∧
    (Allocated c → ∀ addr b, Event.brokerNew .bootstrap addr (some b) ∈ evs →
      b.id < c1.nextId ∧ NotCached b c1)

/-- The three public operations of the client. -/
inductive Call where
  | partitions (topic : String)
  | leader (topic : String) (partition : Int)
  | coordinator (topic group : String)
  deriving DecidableEq, Repr

/-- The state after one public operation. -/
def callStep (w : World) (call : Call) (c : C) : C :=
  match call with
  | .partitions topic => (Partitions w topic c).2
  | .leader topic partition => (Leader w topic partition c).2
  | .coordinator topic group => (Coordinator w topic group c).2

/-- The state after a sequence of public operations. -/
def run (w : World) : List Call → C → C
  | [], c => c
  | call :: rest, c => run w rest (callStep w call c)

/-- Number of `Close` calls on the handle `b` recorded in a trace. -/
def closeCount (b : B) (tr : List Event) : Nat :=
  tr.countP (fun e => decide (e = Event.close b))

/-- A client that knows one broker, node 1, and nothing else. -/
def knownClient : C :=
  { brokers := [(1, ⟨0, "h:1"⟩)], topicPartitions := [], topicPartitionLeader := [],
    groupCoordinator := [], config := seedConfig, nextId := 1, trace := [] }

/-- A client that knows one broker and has cached the partitions of `t`. -/
def cachedClient : C :=
  { knownClient with topicPartitions := [("t", [0, 1, 2])] }

/-- The four maps and the configuration are the same in both states. -/
def SameMaps (c c1 : C) : Prop :=
  c1.brokers = c.brokers ∧ c1.topicPartitions = c.topicPartitions ∧
    c1.topicPartitionLeader = c.topicPartitionLeader ∧
    c1.groupCoordinator = c.groupCoordinator ∧ c1.config = c.config

/-- A topic-metadata response with two brokers and a topic entry that lists
partition 0 twice, with different leaders. -/
def dupResponse : TopicMetadataResponse :=
  { Brokers := [⟨1, "h", 1⟩, ⟨2, "h", 2⟩],
    TopicMetadatas := [⟨"t", [⟨0, 1⟩, ⟨0, 2⟩]⟩] }

/-- A world whose topic-metadata answer is always `dupResponse`. -/
def dupWorld : World :=
  { quietWorld with topicMetadata := fun _ _ _ => .ok dupResponse }

/-- A topic-metadata response with two brokers and the two partitions of
topic `t`, led by node 1 and by the unknown node 7. -/
def goodResponse : TopicMetadataResponse :=
  { Brokers := [⟨1, "h", 1⟩, ⟨2, "h", 2⟩],
    TopicMetadatas := [⟨"s", []⟩, ⟨"t", [⟨0, 1⟩, ⟨1, 7⟩]⟩] }

/-- A world whose topic-metadata answer is always `goodResponse` and whose
consumer-metadata answer names node 2 as coordinator. -/
def goodWorld : World :=
  { quietWorld with topicMetadata := fun _ _ _ => .ok goodResponse
                    consumerMetadata := fun _ _ _ => .ok ⟨2⟩ }

/-- A world whose topic-metadata answer registers node 5 but lists no topic,
and whose consumer-metadata answer names node 5 as coordinator. -/
def lostTopicWorld : World :=
  { quietWorld with topicMetadata := fun _ _ _ => .ok ⟨[⟨5, "h", 5⟩], []⟩
                    consumerMetadata := fun _ _ _ => .ok ⟨5⟩ }

/-- `Produce` called in producer state `p` enters its loop with the selector
state `s0` and the producer state `p0`: either the selector of `topic` is
cached, or it is built from the list returned by `Partitions`. -/
def LoopEntry {S : Type} (w : World) (sel : Partitioner S) (topic : String) (p : P S)
    (s0 : S) (p0 : P S) : Prop :=
  (mapGet topic p.topicPartitioner = some s0 ∧ p0 = p) ∨
  (mapGet topic p.topicPartitioner = none ∧
    ∃ partitions c1, Partitions w topic p.client = (.ok partitions, c1) ∧
      s0 = sel.new partitions ∧
      p0 = { client := c1,
             topicPartitioner := mapSet topic (sel.new partitions) p.topicPartitioner,
             calls := .add topic partitions :: .partitions topic :: p.calls })

/-- Iteration `i` of the loop of `Produce` when it ends with `continue` (the
leader lookup of the selected partition failed): the states at the start of
iteration `i + 1`. -/
def loopNext {S : Type} (w : World) (sel : Partitioner S) (topic : String) (key : Bytes)
    (i : Nat) (s : S) (p : P S) : Option (S × P S) :=
  if i < sel.count s then
    match sel.partition s key with
    | (.error _, _) => none
    | (.ok partition, s1) =>
      match Leader w topic partition p.client with
      | (.error _, c1) =>
        some (sel.skip s1 partition,
          { p with client := c1,
                   calls := .skip partition :: .leader topic partition ::
                     .partition key :: p.calls })
      | (.ok _, _) => none
  else none

/-- The states at the start of iteration `j + k` when the `k` iterations from
iteration `j` on all end with `continue`. -/
def loopAfter {S : Type} (w : World) (sel : Partitioner S) (topic : String) (key : Bytes) :
    Nat → Nat → S → P S → Option (S × P S)
  | 0, _, s, p => some (s, p)
  | k + 1, j, s, p =>
    match loopNext w sel topic key j s p with
    | some (s1, p1) => loopAfter w sel topic key k (j + 1) s1 p1
    | none => none

/-- The calls logged by iterations that skipped the partitions `failed`
(newest first) because their leader lookup failed. -/
def skippedCalls (topic : String) (key : Bytes) : List Int → List PCall
  | [] => []
  | q :: older =>
    .skip q :: .leader topic q :: .partition key :: skippedCalls topic key older

/-- A selector that keeps the partition list and the skipped partitions and
selects the first partition that was not skipped. -/
def firstFit : Partitioner (List Int × List Int) :=
  { new := fun ps => (ps, [])
    count := fun s => s.1.length
    partition := fun s _ =>
      match s.1.filter (fun q => decide (q ∉ s.2)) with
      | [] => (.error .noValidPartition, s)
      | q :: _ => (.ok q, s)
    skip := fun s q => (s.1, q :: s.2) }

/-- A client that knows nodes 1 and 2, the partitions 0, 1, 2 of topic `t`
and the leaders of partitions 1 and 2, but not the leader of partition 0. -/
def leaderClient : C :=
  { brokers := [(1, ⟨1, "h:1"⟩), (2, ⟨2, "h:2"⟩)],
    topicPartitions := [("t", [0, 1, 2])],
    topicPartitionLeader := [(("t", 1), ⟨1, "h:1"⟩), (("t", 2), ⟨2, "h:2"⟩)],
    groupCoordinator := [], config := seedConfig, nextId := 3, trace := [] }

/-- A producer over `leaderClient` with a cached `firstFit` selector for `t`. -/
def tProducer : P (List Int × List Int) :=
  { client := leaderClient, topicPartitioner := [("t", ([0, 1, 2], []))], calls := [] }

/-- A world in which metadata requests fail, a produce request to the handle
of node 1 fails with `ErrConn` and a produce request to any other handle is
acknowledged. -/
def flakyWorld : World :=
  { quietWorld with
    produce := fun _ b _ _ _ _ => if b.id = 1 then .error .conn else .ok [] }

/-- A world in which metadata requests fail and every produce request fails
with an error other than `ErrConn`. -/
def brokenWorld : World :=
  { quietWorld with produce := fun _ _ _ _ _ _ => .error (.other 7) }

/-- A world in which metadata requests fail and every produce request is
answered, with acknowledgment codes 0 and 3. -/
def ackWorld : World :=
  { quietWorld with produce := fun _ _ _ _ _ _ => .ok [⟨[⟨0⟩, ⟨3⟩]⟩] }

/-- A producer over `cachedClient` (no leader is cached) with a cached
`firstFit` selector for `t`. -/
def noLeaderProducer : P (List Int × List Int) :=
  { client := cachedClient, topicPartitioner := [("t", ([0, 1, 2], []))], calls := [] }

/-- Whether a pool event is a call of the pool factory `NewChannelPool`. -/
def isNewChannelPool : PoolEvent → Bool
  | .newChannelPool _ _ _ _ => true
  | _ => false

/-- A pool world in which every call succeeds. -/
def calmPool : PoolWorld :=
  { newChannelPool := fun _ _ _ _ => none
    get := fun _ _ => none
    setWriteDeadline := fun _ _ => none
    send := fun _ _ => none
    setReadDeadline := fun _ _ => none
    receive := fun _ _ => none }

/-- A broker handle whose pool, number 0, exists. -/
def pooledBroker : PoolBroker :=
  { NewPoolBroker "h:1" with p := some 0,
                             log := [.newChannelPool 0 10 "h:1" (some 0)] }

/-- A world whose consumer-metadata answer names node 1 as coordinator. -/
def coordWorld : World :=
  { quietWorld with consumerMetadata := fun _ _ _ => .ok ⟨1⟩ }

/-- Every call that `Do` makes on a handle without pool is answered without
error: the pool factory, `Get`, `SetWriteDeadline`, `Send` and, when a
response is expected, `SetReadDeadline` and `Receive`, each asked with the log
of the calls before it. The new pool has number `b.log.length`, the
connection number `b.log.length + 1`. -/
def PoolBroker.allSucceed (w : PoolWorld) (hasResp : Bool) (b : PoolBroker) : Prop :=
  w.newChannelPool b.log 0 b.MaxCap b.addr = none ∧
  w.get (.newChannelPool 0 b.MaxCap b.addr (some b.log.length) :: b.log) b.log.length = none ∧
  w.setWriteDeadline
      (.get b.log.length (some (b.log.length + 1)) ::
        .newChannelPool 0 b.MaxCap b.addr (some b.log.length) :: b.log)
      (b.log.length + 1) = none ∧
  w.send
      (.setWriteDeadline (b.log.length + 1) true ::
        .get b.log.length (some (b.log.length + 1)) ::
        .newChannelPool 0 b.MaxCap b.addr (some b.log.length) :: b.log)
      (b.log.length + 1) = none ∧
  (hasResp = true →
    w.setReadDeadline
        (.send (b.log.length + 1) true :: .setWriteDeadline (b.log.length + 1) true ::
          .get b.log.length (some (b.log.length + 1)) ::
          .newChannelPool 0 b.MaxCap b.addr (some b.log.length) :: b.log)
        (b.log.length + 1) = none ∧
    w.receive
        (.setReadDeadline (b.log.length + 1) true :: .send (b.log.length + 1) true ::
          .setWriteDeadline (b.log.length + 1) true ::
          .get b.log.length (some (b.log.length + 1)) ::
          .newChannelPool 0 b.MaxCap b.addr (some b.log.length) :: b.log)
        (b.log.length + 1) = none)

/-- The log of a `Do` on a handle without pool in which every call succeeds. -/
def PoolBroker.doneLog (hasResp : Bool) (b : PoolBroker) : List PoolEvent :=
  .connClose (b.log.length + 1) ::
    ((if hasResp then
        [.receive (b.log.length + 1) true, .setReadDeadline (b.log.length + 1) true]
      else []) ++
      (.send (b.log.length + 1) true :: .setWriteDeadline (b.log.length + 1) true ::
        .get b.log.length (some (b.log.length + 1)) ::
        .newChannelPool 0 b.MaxCap b.addr (some b.log.length) :: b.log))

/-- A pool world in which the pool factory fails. -/
def noPoolWorld : PoolWorld :=
  { calmPool with newChannelPool := fun _ _ _ _ => some (.other 1) }

/-- A pool world in which setting the write deadline fails. -/
def lateWorld : PoolWorld :=
  { calmPool with setWriteDeadline := fun _ _ => some (.other 2) }

/-- Number of produce requests recorded in a trace. -/
def produceRequests (tr : List Event) : Nat :=
  tr.countP (fun e => match e with
    | .doProduce _ _ _ _ _ => true
    | _ => false)

/-! ## Lemmas on maps -/

theorem mapDel_cons_self {κ ν : Type} [DecidableEq κ] (k : κ) (v : ν) (m : List (κ × ν)) :
    mapDel k ((k, v) :: m) = mapDel k m := by
  simp [mapDel]

theorem mapDel_cons_ne {κ ν : Type} [DecidableEq κ] {k k1 : κ} (h : k1 ≠ k) (v : ν)
    (m : List (κ × ν)) : mapDel k ((k1, v) :: m) = (k1, v) :: mapDel k m := by
  simp [mapDel, h]

theorem mapGet_cons_self {κ ν : Type} [DecidableEq κ] (k : κ) (v : ν) (m : List (κ × ν)) :
    mapGet k ((k, v) :: m) = some v := by
  simp [mapGet]

theorem mapGet_cons_ne {κ ν : Type} [DecidableEq κ] {k k1 : κ} (h : k1 ≠ k) (v : ν)
    (m : List (κ × ν)) : mapGet k ((k1, v) :: m) = mapGet k m := by
  simp [mapGet, h]

theorem mapGet_mapDel_self {κ ν : Type} [DecidableEq κ] (k : κ) (m : List (κ × ν)) :
    mapGet k (mapDel k m) = none := by
  induction m with
  | nil => rfl
  | cons e m ih =>
    obtain ⟨k1, v⟩ := e
    by_cases h : k1 = k
    · subst h
      rw [mapDel_cons_self]
      exact ih
    · rw [mapDel_cons_ne h, mapGet_cons_ne h]
      exact ih

theorem mapGet_mapDel_ne {κ ν : Type} [DecidableEq κ] {k k' : κ} (h : k' ≠ k)
    (m : List (κ × ν)) : mapGet k' (mapDel k m) = mapGet k' m := by
  induction m with
  | nil => rfl
  | cons e m ih =>
    obtain ⟨k1, v⟩ := e
    by_cases h1 : k1 = k
    · subst h1
      rw [mapDel_cons_self, mapGet_cons_ne (Ne.symm h)]
      exact ih
    · rw [mapDel_cons_ne h1]
      by_cases h2 : k1 = k'
      · subst h2
        rw [mapGet_cons_self, mapGet_cons_self]
      · rw [mapGet_cons_ne h2, mapGet_cons_ne h2]
        exact ih

theorem mapGet_mapSet_self {κ ν : Type} [DecidableEq κ] (k : κ) (v : ν) (m : List (κ × ν)) :
    mapGet k (mapSet k v m) = some v := by
  simp [mapSet, mapGet]

theorem mapGet_mapSet_ne {κ ν : Type} [DecidableEq κ] {k k' : κ} (h : k' ≠ k) (v : ν)
    (m : List (κ × ν)) : mapGet k' (mapSet k v m) = mapGet k' m := by
  unfold mapSet
  rw [mapGet_cons_ne (Ne.symm h), mapGet_mapDel_ne h]

theorem mapDel_of_mapGet_none {κ ν : Type} [DecidableEq κ] {k : κ} {m : List (κ × ν)}
    (h : mapGet k m = none) : mapDel k m = m := by
  induction m with
  | nil => rfl
  | cons e m ih =>
    obtain ⟨k1, v⟩ := e
    by_cases h1 : k1 = k
    · subst h1
      rw [mapGet_cons_self] at h
      cases h
    · rw [mapGet_cons_ne h1] at h
      rw [mapDel_cons_ne h1, ih h]

theorem mem_mapVals_of_mapGet {κ ν : Type} [DecidableEq κ] {k : κ} {v : ν}
    {m : List (κ × ν)} (h : mapGet k m = some v) : v ∈ mapVals m := by
  induction m with
  | nil => simp [mapGet] at h
  | cons e m ih =>
    obtain ⟨k1, v1⟩ := e
    by_cases h1 : k1 = k
    · simp [mapGet, h1] at h
      simp [mapVals, h]
    · simp only [mapGet, h1, if_false] at h
      have := ih h
      simp only [mapVals, List.map_cons, List.mem_cons] at this ⊢
      exact Or.inr this

theorem mem_mapVals_mapDel {κ ν : Type} [DecidableEq κ] {k : κ} {x : ν}
    {m : List (κ × ν)} (h : x ∈ mapVals (mapDel k m)) : x ∈ mapVals m := by
  simp only [mapVals, mapDel, List.mem_map, List.mem_filter] at h ⊢
  obtain ⟨e, ⟨he, _⟩, hx⟩ := h
  exact ⟨e, he, hx⟩

theorem mem_mapVals_mapSet {κ ν : Type} [DecidableEq κ] {k : κ} {v x : ν}
    {m : List (κ × ν)} (h : x ∈ mapVals (mapSet k v m)) : x = v ∨ x ∈ mapVals m := by
  have h1 : x = v ∨ x ∈ mapVals (mapDel k m) := by
    simpa [mapVals, mapSet] using h
  rcases h1 with h1 | h1
  · exact Or.inl h1
  · exact Or.inr (mem_mapVals_mapDel h1)

theorem mapVals_mapSet_of_none {κ ν : Type} [DecidableEq κ] {k : κ} (v : ν)
    {m : List (κ × ν)} (h : mapGet k m = none) : mapVals (mapSet k v m) = v :: mapVals m := by
  simp [mapSet, mapVals, mapDel_of_mapGet_none h]

theorem getD_mem {α : Type} (l : List α) (n : Nat) (d : α) (hd : d ∈ l) : l.getD n d ∈ l := by
  induction l generalizing n with
  | nil => cases hd
  | cons a l ih =>
    cases n with
    | zero => simp
    | succ n =>
      by_cases hn : n < l.length
      · have : (a :: l).getD (n + 1) d = l[n] := by simp [List.getD, hn]
        rw [this]
        exact List.mem_cons_of_mem _ (List.getElem_mem _)
      · have : (a :: l).getD (n + 1) d = d := by
          simp [List.getD, List.getElem?_eq_none (Nat.le_of_not_lt hn)]
        rw [this]
        exact hd

/-! ## Bootstrap -/

theorem bootFailures_cons (a : String) (addrs : List String) (tr : List Event) :
    bootFailures (a :: addrs) ++ tr
      = bootFailures addrs ++ (Event.brokerNew .bootstrap a none :: tr) := by
  simp [bootFailures]

/-- The loop of `getBootstrapBroker` either fails at every address or stops
at the first address whose `broker.New` succeeds. -/
theorem bootstrapLoop_cases (w : World) (addrs : List String) (c : C) :
    ((∀ pre a post, addrs = pre ++ a :: post →
          w.newOk (bootFailures pre ++ c.trace) a = false) ∧
        bootstrapLoop w addrs c
          = (.error .noBrokerFound, { c with trace := bootFailures addrs ++ c.trace })) ∨
    (∃ pre a post, addrs = pre ++ a :: post ∧
        (∀ pre1 a1 post1, pre = pre1 ++ a1 :: post1 →
          w.newOk (bootFailures pre1 ++ c.trace) a1 = false) ∧
        w.newOk (bootFailures pre ++ c.trace) a = true ∧
        bootstrapLoop w addrs c
          = (.ok ⟨c.nextId, a⟩,
              { c with nextId := c.nextId + 1,
                       trace := Event.brokerNew .bootstrap a (some ⟨c.nextId, a⟩) ::
                         (bootFailures pre ++ c.trace) })) := by
  induction addrs generalizing c with
  | nil =>
    left
    refine ⟨?_, ?_⟩
    · intro pre a post h
      cases pre <;> simp at h
    · simp [bootstrapLoop, bootFailures]
  | cons a rest ih =>
    by_cases hok : w.newOk c.trace a = true
    · right
      refine ⟨[], a, rest, rfl, ?_, ?_, ?_⟩
      · intro pre1 a1 post1 h
        cases pre1 <;> simp at h
      · simpa [bootFailures] using hok
      · simp [bootstrapLoop, brokerNew, hok, bootFailures]
    · have hok2 : w.newOk c.trace a = false := by simpa using hok
      have hstep : bootstrapLoop w (a :: rest) c
          = bootstrapLoop w rest
              { c with trace := Event.brokerNew .bootstrap a none :: c.trace } := by
        simp [bootstrapLoop, brokerNew, hok2]
      rcases ih { c with trace := Event.brokerNew .bootstrap a none :: c.trace } with
        ⟨hall, hres⟩ | ⟨pre, a2, post, hsplit, hpre, ha2, hres⟩
      · left
        refine ⟨?_, ?_⟩
        · intro pre1 a1 post1 h
          cases pre1 with
          | nil =>
            simp at h
            simpa [bootFailures, ← h.1] using hok2
          | cons x pre2 =>
            simp at h
            rw [← h.1, bootFailures_cons]
            exact hall pre2 a1 post1 h.2
        · rw [hstep, hres, bootFailures_cons]
      · right
        refine ⟨a :: pre, a2, post, by simp [hsplit], ?_, ?_, ?_⟩
        · intro pre1 a1 post1 h
          cases pre1 with
          | nil =>
            simp at h
            simpa [bootFailures, ← h.1] using hok2
          | cons x pre2 =>
            simp at h
            rw [← h.1, bootFailures_cons]
            exact hpre pre2 a1 post1 h.2
        · rw [bootFailures_cons]
          exact ha2
        · rw [hstep, hres, bootFailures_cons]

theorem getAnyBroker_of_empty (w : World) (c : C) (h : c.brokers = []) :
    getAnyBroker w c =
      match bootstrapLoop w c.config.Brokers c with
      | (.error err, c1) => (.error err, c1)
      | (.ok b, c1) => (.ok (b, true), c1) := by
  simp [getAnyBroker, h, getBootstrapBroker]

theorem getAnyBroker_of_nonempty (w : World) (c : C) (h : c.brokers ≠ []) :
    ∃ b, b ∈ mapVals c.brokers ∧ getAnyBroker w c = (.ok (b, false), c) := by
  cases hb : c.brokers with
  | nil => exact absurd hb h
  | cons e es =>
    refine ⟨((e :: es).getD (w.pick c.trace % (es.length + 1)) e).2, ?_, ?_⟩
    · have := getD_mem (e :: es) (w.pick c.trace % (es.length + 1)) e (List.mem_cons_self _ _)
      exact List.mem_map_of_mem Prod.snd this
    · simp [getAnyBroker, hb]

/-- Claim C7. Bootstrap fallback. With an empty node registry, `getAnyBroker`
either returns, with `needClosing = true`, the fresh handle built for the
first seed address (in list order) whose `broker.New` succeeds, the trace
showing one failed attempt for each earlier address and no attempt for a later
one, or it fails with `ErrNoBrokerFound` after a failed attempt for every
address; and it fails with `ErrNoBrokerFound` exactly when `broker.New` fails
for every address of the list (each asked in turn). With a non-empty registry
it returns a registered handle with `needClosing = false` and leaves the state,
hence the trace, untouched. -/
theorem getAnyBroker_bootstrap_fallback (w : World) (c : C) :
    (c.brokers = [] →
      ((∃ pre a post, c.config.Brokers = pre ++ a :: post ∧
          (∀ pre1 a1 post1, pre = pre1 ++ a1 :: post1 →
            w.newOk (bootFailures pre1 ++ c.trace) a1 = false) ∧
          w.newOk (bootFailures pre ++ c.trace) a = true ∧
          getAnyBroker w c
            = (.ok (⟨c.nextId, a⟩, true),
                { c with nextId := c.nextId + 1,
                         trace := Event.brokerNew .bootstrap a (some ⟨c.nextId, a⟩) ::
                           (bootFailures pre ++ c.trace) })) ∨
        ((∀ pre a post, c.config.Brokers = pre ++ a :: post →
            w.newOk (bootFailures pre ++ c.trace) a = false) ∧
          getAnyBroker w c
            = (.error .noBrokerFound,
                { c with trace := bootFailures c.config.Brokers ++ c.trace }))) ∧
      ((getAnyBroker w c).1 = .error .noBrokerFound ↔
        ∀ pre a post, c.config.Brokers = pre ++ a :: post →
          w.newOk (bootFailures pre ++ c.trace) a = false)) ∧
    (c.brokers ≠ [] →
      ∃ b, b ∈ mapVals c.brokers ∧ getAnyBroker w c = (.ok (b, false), c)) := by
  refine ⟨fun hempty => ?_, getAnyBroker_of_nonempty w c⟩
  have hget := getAnyBroker_of_empty w c hempty
  rcases bootstrapLoop_cases w c.config.Brokers c with
    ⟨hall, hres⟩ | ⟨pre, a, post, hsplit, hpre, ha, hres⟩
  · rw [hres] at hget
    refine ⟨Or.inr ⟨hall, hget⟩, ?_⟩
    rw [hget]
    exact ⟨fun _ => hall, fun _ => rfl⟩
  · rw [hres] at hget
    refine ⟨Or.inl ⟨pre, a, post, hsplit, hpre, ha, hget⟩, ?_⟩
    rw [hget]
    constructor
    · intro h
      cases h
    · intro h
      have := h pre a post hsplit
      rw [ha] at this
      cases this

theorem getAnyBroker_bootstrap_fallback_witness :
    ((New seedConfig).brokers = [] ∧
      ((getAnyBroker seedWorld (New seedConfig)).1 = .error .noBrokerFound ↔
        ∀ pre a post, (New seedConfig).config.Brokers = pre ++ a :: post →
          seedWorld.newOk (bootFailures pre ++ (New seedConfig).trace) a = false)) ∧
    (knownClient.brokers ≠ [] ∧
      ∃ b, b ∈ mapVals knownClient.brokers ∧
        getAnyBroker seedWorld knownClient = (.ok (b, false), knownClient)) :=
  ⟨⟨rfl, ((getAnyBroker_bootstrap_fallback seedWorld (New seedConfig)).1 rfl).2⟩,
   ⟨by decide, (getAnyBroker_bootstrap_fallback seedWorld knownClient).2 (by decide)⟩⟩

/-! ## Steps of the client state -/

theorem Step.refl (c : C) : Step c c where
  next_le := Nat.le_refl _
  inv := id
  alloc := id
  keep := fun _ _ h => h
  boot := ⟨[], rfl, fun _ _ _ h => by cases h⟩

theorem Step.trans {c c1 c2 : C} (h1 : Step c c1) (h2 : Step c1 c2) : Step c c2 where
  next_le := Nat.le_trans h1.next_le h2.next_le
  inv := fun h => h2.inv (h1.inv h)
  alloc := fun h => h2.alloc (h1.alloc h)
  keep := fun b hb h => h2.keep b (Nat.lt_of_lt_of_le hb h1.next_le) (h1.keep b hb h)
  boot := by
    obtain ⟨e1, ht1, hb1⟩ := h1.boot
    obtain ⟨e2, ht2, hb2⟩ := h2.boot
    refine ⟨e2 ++ e1, by rw [ht2, ht1, List.append_assoc], ?_⟩
    intro ha addr b hmem
    rcases List.mem_append.1 hmem with hm | hm
    · exact hb2 (h1.alloc ha) addr b hm
    · have := hb1 ha addr b hm
      exact ⟨Nat.lt_of_lt_of_le this.1 h2.next_le, h2.keep b this.1 this.2⟩

/-- Recording an event other than a successful bootstrap `broker.New`. -/
theorem Step.event (c : C) (e : Event)
    (he : ∀ addr b, e ≠ Event.brokerNew .bootstrap addr (some b)) :
    Step c { c with trace := e :: c.trace } where
  next_le := Nat.le_refl _
  inv := id
  alloc := id
  keep := fun _ _ h => h
  boot := ⟨[e], rfl, fun _ addr b h => by
    simp only [List.mem_singleton] at h
    exact absurd h.symm (he addr b)⟩

theorem Step.brokerNew (w : World) (site : Site) (addr : String) (c : C) :
    Step c (brokerNew w site addr c).2 := by
  unfold Kafka.brokerNew
  by_cases hok : w.newOk c.trace addr = true
  · simp only [hok, if_true]
    exact
      { next_le := Nat.le_succ _
        inv := id
        alloc := fun h =>
          ⟨fun b hb => Nat.lt_succ_of_lt (h.1 b hb),
           fun b hb => Nat.lt_succ_of_lt (h.2.1 b hb),
           fun b hb => Nat.lt_succ_of_lt (h.2.2 b hb)⟩
        keep := fun _ _ h => h
        boot := ⟨[Event.brokerNew site addr (some ⟨c.nextId, addr⟩)], rfl, by
          intro ha addr1 b h
          simp only [List.mem_singleton, Event.brokerNew.injEq, Option.some.injEq] at h
          obtain ⟨_, _, hb⟩ := h
          subst hb
          refine ⟨Nat.lt_succ_self _, ?_, ?_, ?_⟩
          · exact fun hm => Nat.lt_irrefl _ (ha.1 _ hm)
          · exact fun hm => Nat.lt_irrefl _ (ha.2.1 _ hm)
          · exact fun hm => Nat.lt_irrefl _ (ha.2.2 _ hm)⟩ }
  · simp only [hok]
    exact Step.event c _ (fun _ _ h => by cases h)

/-- Registration of a freshly built handle under a node id that is not yet in
the registry. -/
theorem Step.register (c : C) (k : Int) (addr : String) (hk : mapGet k c.brokers = none) :
    Step c { c with nextId := c.nextId + 1,
                    trace := Event.brokerNew .registry addr (some ⟨c.nextId, addr⟩) :: c.trace,
                    brokers := mapSet k ⟨c.nextId, addr⟩ c.brokers } where
  next_le := Nat.le_succ _
  inv := fun h => by
    refine ⟨fun b hb => ?_, fun b hb => ?_⟩
    · simp only [mapVals_mapSet_of_none _ hk]
      exact List.mem_cons_of_mem _ (h.1 b hb)
    · simp only [mapVals_mapSet_of_none _ hk]
      exact List.mem_cons_of_mem _ (h.2 b hb)
  alloc := fun h => by
    refine ⟨fun b hb => ?_, fun b hb => Nat.lt_succ_of_lt (h.2.1 b hb),
      fun b hb => Nat.lt_succ_of_lt (h.2.2 b hb)⟩
    simp only [mapVals_mapSet_of_none _ hk, List.mem_cons] at hb
    rcases hb with hb | hb
    · subst hb
      exact Nat.lt_succ_self _
    · exact Nat.lt_succ_of_lt (h.1 b hb)
  keep := fun b hb h => by
    refine ⟨fun hm => ?_, h.2.1, h.2.2⟩
    simp only [mapVals_mapSet_of_none _ hk, List.mem_cons] at hm
    rcases hm with hm | hm
    · subst hm
      exact Nat.lt_irrefl _ hb
    · exact h.1 hm
  boot := ⟨[Event.brokerNew .registry addr (some ⟨c.nextId, addr⟩)], rfl, fun _ addr1 b h => by
    simp at h⟩

/-- Caching a registered handle as the leader of a partition. -/
theorem Step.setLeader (c : C) (key : String × Int) (b : B) (hb : b ∈ mapVals c.brokers) :
    Step c { c with topicPartitionLeader := mapSet key b c.topicPartitionLeader } where
  next_le := Nat.le_refl _
  inv := fun h => by
    refine ⟨fun x hx => ?_, h.2⟩
    rcases mem_mapVals_mapSet hx with hx | hx
    · subst hx
      exact hb
    · exact h.1 x hx
  alloc := fun h => by
    refine ⟨h.1, fun x hx => ?_, h.2.2⟩
    rcases mem_mapVals_mapSet hx with hx | hx
    · subst hx
      exact h.1 _ hb
    · exact h.2.1 x hx
  keep := fun x _ h => by
    refine ⟨h.1, fun hx => ?_, h.2.2⟩
    rcases mem_mapVals_mapSet hx with hx | hx
    · subst hx
      exact h.1 hb
    · exact h.2.1 hx
  boot := ⟨[], rfl, fun _ _ _ h => by cases h⟩

/-- Caching a registered handle as the coordinator of a group. -/
theorem Step.setCoordinator (c : C) (group : String) (b : B) (hb : b ∈ mapVals c.brokers) :
    Step c { c with groupCoordinator := mapSet group b c.groupCoordinator } where
  next_le := Nat.le_refl _
  inv := fun h => by
    refine ⟨h.1, fun x hx => ?_⟩
    rcases mem_mapVals_mapSet hx with hx | hx
    · subst hx
      exact hb
    · exact h.2 x hx
  alloc := fun h => by
    refine ⟨h.1, h.2.1, fun x hx => ?_⟩
    rcases mem_mapVals_mapSet hx with hx | hx
    · subst hx
      exact h.1 _ hb
    · exact h.2.2 x hx
  keep := fun x _ h => by
    refine ⟨h.1, h.2.1, fun hx => ?_⟩
    rcases mem_mapVals_mapSet hx with hx | hx
    · subst hx
      exact h.1 hb
    · exact h.2.2 hx
  boot := ⟨[], rfl, fun _ _ _ h => by cases h⟩

/-- Storing a partition list. -/
theorem Step.setPartitions (c : C) (m : List (String × List Int)) :
    Step c { c with topicPartitions := m } where
  next_le := Nat.le_refl _
  inv := id
  alloc := id
  keep := fun _ _ h => h
  boot := ⟨[], rfl, fun _ _ _ h => by cases h⟩

theorem Step.bootstrapLoop (w : World) (addrs : List String) (c : C) :
    Step c (bootstrapLoop w addrs c).2 := by
  induction addrs generalizing c with
  | nil => exact Step.refl c
  | cons a rest ih =>
    have h1 := Step.brokerNew w .bootstrap a c
    unfold Kafka.bootstrapLoop
    rcases hb : Kafka.brokerNew w .bootstrap a c with ⟨r, c1⟩
    rw [hb] at h1
    cases r with
    | some b => exact h1
    | none => exact Step.trans h1 (ih c1)

theorem Step.getAnyBroker (w : World) (c : C) : Step c (getAnyBroker w c).2 := by
  by_cases h : c.brokers = []
  · rw [getAnyBroker_of_empty w c h]
    have h1 := Step.bootstrapLoop w c.config.Brokers c
    rcases hb : Kafka.bootstrapLoop w c.config.Brokers c with ⟨r, c1⟩
    rw [hb] at h1
    cases r <;> exact h1
  · obtain ⟨b, _, hb⟩ := getAnyBroker_of_nonempty w c h
    rw [hb]
    exact Step.refl c

theorem Step.closeIf (needClosing : Bool) (b : B) (c : C) : Step c (closeIf needClosing b c) := by
  unfold Kafka.closeIf
  cases needClosing
  · exact Step.refl c
  · exact Step.event c _ (fun _ _ h => by cases h)

theorem Step.getTopicMetadata (w : World) (topic : String) (c : C) :
    Step c (getTopicMetadata w topic c).2 := by
  have h1 := Step.getAnyBroker w c
  unfold Kafka.getTopicMetadata
  rcases hb : Kafka.getAnyBroker w c with ⟨r, c1⟩
  rw [hb] at h1
  rcases r with err | ⟨broker, needClosing⟩
  · exact h1
  · exact Step.trans h1 (Step.trans (Step.event c1 _ (fun _ _ h => by cases h))
      (Step.closeIf needClosing broker _))

theorem Step.getConsumerMetadata (w : World) (group : String) (c : C) :
    Step c (getConsumerMetadata w group c).2 := by
  have h1 := Step.getAnyBroker w c
  unfold Kafka.getConsumerMetadata
  rcases hb : Kafka.getAnyBroker w c with ⟨r, c1⟩
  rw [hb] at h1
  rcases r with err | ⟨broker, needClosing⟩
  · exact h1
  · exact Step.trans h1 (Step.trans (Step.event c1 _ (fun _ _ h => by cases h))
      (Step.closeIf needClosing broker _))

theorem brokerNew_some (w : World) (site : Site) (addr : String) (c : C) (b : B) (c1 : C)
    (h : brokerNew w site addr c = (some b, c1)) :
    b = ⟨c.nextId, addr⟩ ∧
      c1 = { c with nextId := c.nextId + 1,
                    trace := Event.brokerNew site addr (some ⟨c.nextId, addr⟩) :: c.trace } := by
  unfold brokerNew at h
  split at h
  · simp only [Prod.mk.injEq, Option.some.injEq] at h
    exact ⟨h.1.symm, h.2.symm⟩
  · simp at h

theorem Step.registerBrokers (w : World) (bs : List BrokerInfo) (c : C) :
    Step c (registerBrokers w bs c) := by
  induction bs generalizing c with
  | nil => exact Step.refl c
  | cons b rest ih =>
    unfold Kafka.registerBrokers
    cases hk : mapGet b.NodeID c.brokers with
    | some _ => exact ih c
    | none =>
      simp only
      have h1 := Step.brokerNew w .registry (brokerAddr b) c
      rcases hb : Kafka.brokerNew w .registry (brokerAddr b) c with ⟨r, c1⟩
      rw [hb] at h1
      cases r with
      | none => exact Step.trans h1 (ih c1)
      | some broker =>
        obtain ⟨hbr, hc1⟩ := brokerNew_some w _ _ c broker c1 hb
        subst hbr hc1
        exact Step.trans (Step.register c b.NodeID (brokerAddr b) hk) (ih _)

theorem Step.setLeaders (topic : String) (pms : List PartitionMetadata) (c : C) :
    Step c (setLeaders topic pms c) := by
  induction pms generalizing c with
  | nil => exact Step.refl c
  | cons pm rest ih =>
    unfold Kafka.setLeaders
    cases hk : mapGet pm.Leader c.brokers with
    | none => exact ih c
    | some broker =>
      exact Step.trans (Step.setLeader c _ broker (mem_mapVals_of_mapGet hk)) (ih _)

theorem Step.findTopic (topic : String) (ts : List TopicMetadata) (c : C) :
    Step c (findTopic topic ts c).2 := by
  induction ts generalizing c with
  | nil => exact Step.refl c
  | cons t rest ih =>
    unfold Kafka.findTopic
    by_cases ht : t.TopicName = topic
    · simp only [ht, if_true]
      exact Step.trans (Step.setLeaders topic t.PartitionMetadatas c) (Step.setPartitions _ _)
    · simp only [ht, if_false]
      exact ih c

theorem Step.updateFromTopicMetadata (w : World) (topic : String) (c : C) :
    Step c (updateFromTopicMetadata w topic c).2 := by
  have h1 := Step.getTopicMetadata w topic c
  unfold Kafka.updateFromTopicMetadata
  rcases hb : Kafka.getTopicMetadata w topic c with ⟨r, c1⟩
  rw [hb] at h1
  cases r with
  | error err => exact h1
  | ok m =>
    exact Step.trans h1 (Step.trans (Step.registerBrokers w m.Brokers c1)
      (Step.findTopic topic m.TopicMetadatas _))

theorem Step.updateFromConsumerMetadata (w : World) (topic group : String) (c : C) :
    Step c (updateFromConsumerMetadata w topic group c).2 := by
  have h1 := Step.getConsumerMetadata w group c
  unfold Kafka.updateFromConsumerMetadata
  rcases hb : Kafka.getConsumerMetadata w group c with ⟨r, c1⟩
  rw [hb] at h1
  cases r with
  | error err => exact h1
  | ok m =>
    simp only
    cases hk : mapGet m.CoordinatorID c1.brokers with
    | some broker =>
      exact Step.trans h1 (Step.setCoordinator c1 group broker (mem_mapVals_of_mapGet hk))
    | none =>
      simp only
      have h2 := Step.updateFromTopicMetadata w topic c1
      rcases hu : Kafka.updateFromTopicMetadata w topic c1 with ⟨r2, c2⟩
      rw [hu] at h2
      cases r2 with
      | some err => exact Step.trans h1 h2
      | none =>
        simp only
        cases hk2 : mapGet m.CoordinatorID c2.brokers with
        | some broker =>
          exact Step.trans h1 (Step.trans h2
            (Step.setCoordinator c2 group broker (mem_mapVals_of_mapGet hk2)))
        | none => exact Step.trans h1 h2

theorem Step.Partitions (w : World) (topic : String) (c : C) :
    Step c (Partitions w topic c).2 := by
  unfold Kafka.Partitions
  cases hk : mapGet topic c.topicPartitions with
  | some l => exact Step.refl c
  | none =>
    simp only
    have h2 := Step.updateFromTopicMetadata w topic c
    rcases hu : Kafka.updateFromTopicMetadata w topic c with ⟨r2, c2⟩
    rw [hu] at h2
    cases r2 with
    | some err => exact h2
    | none =>
      simp only
      cases mapGet topic c2.topicPartitions <;> exact h2

theorem Step.Leader (w : World) (topic : String) (partition : Int) (c : C) :
    Step c (Leader w topic partition c).2 := by
  unfold Kafka.Leader
  cases hk : mapGet (topic, partition) c.topicPartitionLeader with
  | some l => exact Step.refl c
  | none =>
    simp only
    have h2 := Step.updateFromTopicMetadata w topic c
    rcases hu : Kafka.updateFromTopicMetadata w topic c with ⟨r2, c2⟩
    rw [hu] at h2
    cases r2 with
    | some err => exact h2
    | none =>
      simp only
      cases mapGet (topic, partition) c2.topicPartitionLeader <;> exact h2

theorem Step.Coordinator (w : World) (topic group : String) (c : C) :
    Step c (Coordinator w topic group c).2 := by
  unfold Kafka.Coordinator
  cases hk : mapGet group c.groupCoordinator with
  | some l => exact Step.refl c
  | none =>
    simp only
    have h2 := Step.updateFromConsumerMetadata w topic group c
    rcases hu : Kafka.updateFromConsumerMetadata w topic group c with ⟨r2, c2⟩
    rw [hu] at h2
    cases r2 with
    | some err => exact h2
    | none =>
      simp only
      cases mapGet group c2.groupCoordinator <;> exact h2

theorem Step.callStep (w : World) (call : Call) (c : C) : Step c (callStep w call c) := by
  cases call with
  | partitions topic => exact Step.Partitions w topic c
  | leader topic partition => exact Step.Leader w topic partition c
  | coordinator topic group => exact Step.Coordinator w topic group c

theorem Step.run (w : World) (calls : List Call) (c : C) : Step c (run w calls c) := by
  induction calls generalizing c with
  | nil => exact Step.refl c
  | cons call rest ih => exact Step.trans (Step.callStep w call c) (ih _)

/-- Claim C3. Registry-membership invariant. Starting from the state built by
`New`, after any sequence of `Partitions`, `Leader` and `Coordinator` calls,
in any world (so with arbitrary metadata responses, I/O failures and
`broker.New` failures), every handle stored in `topicPartitionLeader` and
every handle stored in `groupCoordinator` is a value of `brokers`. -/
theorem registry_membership_invariant (w : World) (config : Config) (calls : List Call) :
    (∀ b, b ∈ mapVals (run w calls (New config)).topicPartitionLeader →
        b ∈ mapVals (run w calls (New config)).brokers) ∧
    (∀ b, b ∈ mapVals (run w calls (New config)).groupCoordinator →
        b ∈ mapVals (run w calls (New config)).brokers) :=
  (Step.run w calls (New config)).inv
    ⟨fun _ h => (by cases h), fun _ h => (by cases h)⟩

/-! ## Counting events -/

theorem countP_brokerNew (p : Event → Bool)
    (hp : ∀ site addr res, p (Event.brokerNew site addr res) = false)
    (w : World) (site : Site) (addr : String) (c : C) :
    (brokerNew w site addr c).2.trace.countP p = c.trace.countP p := by
  unfold brokerNew
  split <;> simp [List.countP_cons, hp]

theorem countP_bootstrapLoop (p : Event → Bool)
    (hp : ∀ site addr res, p (Event.brokerNew site addr res) = false)
    (w : World) (addrs : List String) (c : C) :
    (bootstrapLoop w addrs c).2.trace.countP p = c.trace.countP p := by
  induction addrs generalizing c with
  | nil => rfl
  | cons a rest ih =>
    have h1 := countP_brokerNew p hp w .bootstrap a c
    unfold bootstrapLoop
    rcases hb : brokerNew w .bootstrap a c with ⟨r, c1⟩
    rw [hb] at h1
    cases r with
    | some b => exact h1
    | none => exact (ih c1).trans h1

theorem countP_getAnyBroker (p : Event → Bool)
    (hp : ∀ site addr res, p (Event.brokerNew site addr res) = false)
    (w : World) (c : C) :
    (getAnyBroker w c).2.trace.countP p = c.trace.countP p := by
  by_cases h : c.brokers = []
  · rw [getAnyBroker_of_empty w c h]
    have h1 := countP_bootstrapLoop p hp w c.config.Brokers c
    rcases hb : bootstrapLoop w c.config.Brokers c with ⟨r, c1⟩
    rw [hb] at h1
    cases r <;> exact h1
  · obtain ⟨b, _, hb⟩ := getAnyBroker_of_nonempty w c h
    rw [hb]

theorem countP_registerBrokers (p : Event → Bool)
    (hp : ∀ site addr res, p (Event.brokerNew site addr res) = false)
    (w : World) (bs : List BrokerInfo) (c : C) :
    (registerBrokers w bs c).trace.countP p = c.trace.countP p := by
  induction bs generalizing c with
  | nil => rfl
  | cons b rest ih =>
    unfold registerBrokers
    cases hk : mapGet b.NodeID c.brokers with
    | some _ => exact ih c
    | none =>
      simp only
      have h1 := countP_brokerNew p hp w .registry (brokerAddr b) c
      rcases hb : brokerNew w .registry (brokerAddr b) c with ⟨r, c1⟩
      rw [hb] at h1
      cases r with
      | none => exact (ih c1).trans h1
      | some broker => exact (ih _).trans h1

theorem setLeaders_frame (topic : String) (pms : List PartitionMetadata) (c : C) :
    (setLeaders topic pms c).trace = c.trace ∧
    (setLeaders topic pms c).brokers = c.brokers ∧
    (setLeaders topic pms c).topicPartitions = c.topicPartitions ∧
    (setLeaders topic pms c).groupCoordinator = c.groupCoordinator ∧
    (setLeaders topic pms c).nextId = c.nextId ∧
    (setLeaders topic pms c).config = c.config := by
  induction pms generalizing c with
  | nil => simp [setLeaders]
  | cons pm rest ih =>
    unfold setLeaders
    cases hk : mapGet pm.Leader c.brokers with
    | none => exact ih c
    | some broker => exact ih _

theorem findTopic_frame (topic : String) (ts : List TopicMetadata) (c : C) :
    (findTopic topic ts c).2.trace = c.trace ∧
    (findTopic topic ts c).2.brokers = c.brokers ∧
    (findTopic topic ts c).2.groupCoordinator = c.groupCoordinator ∧
    (findTopic topic ts c).2.nextId = c.nextId ∧
    (findTopic topic ts c).2.config = c.config := by
  induction ts generalizing c with
  | nil => simp [findTopic]
  | cons t rest ih =>
    unfold findTopic
    by_cases ht : t.TopicName = topic
    · simp only [ht, if_true]
      obtain ⟨h1, h2, _, h4, h5, h6⟩ := setLeaders_frame topic t.PartitionMetadatas c
      exact ⟨h1, h2, h4, h5, h6⟩
    · simp only [ht, if_false]
      exact ih c

/-- The trace of `getTopicMetadata`, given the result of `getAnyBroker`. -/
theorem getTopicMetadata_of_broker (w : World) (topic : String) (c c1 : C) (b : B)
    (needClosing : Bool) (h : getAnyBroker w c = (.ok (b, needClosing), c1)) :
    getTopicMetadata w topic c
      = (w.topicMetadata c1.trace b topic,
          closeIf needClosing b
            { c1 with trace := Event.doTopicMetadata b topic :: c1.trace }) := by
  simp [getTopicMetadata, h]

theorem getConsumerMetadata_of_broker (w : World) (group : String) (c c1 : C) (b : B)
    (needClosing : Bool) (h : getAnyBroker w c = (.ok (b, needClosing), c1)) :
    getConsumerMetadata w group c
      = (w.consumerMetadata c1.trace b group,
          closeIf needClosing b
            { c1 with trace := Event.doConsumerMetadata b group :: c1.trace }) := by
  simp [getConsumerMetadata, h]

theorem closeCount_getAnyBroker (w : World) (c : C) (b : B) :
    closeCount b (getAnyBroker w c).2.trace = closeCount b c.trace :=
  countP_getAnyBroker _ (fun _ _ _ => by simp) w c

theorem getAnyBroker_false_state (w : World) (c c1 : C) (b : B)
    (h : getAnyBroker w c = (.ok (b, false), c1)) : c1 = c := by
  by_cases he : c.brokers = []
  · rw [getAnyBroker_of_empty w c he] at h
    rcases hb : bootstrapLoop w c.config.Brokers c with ⟨r, c2⟩
    rw [hb] at h
    cases r <;> simp at h
  · obtain ⟨b1, _, hb⟩ := getAnyBroker_of_nonempty w c he
    rw [hb] at h
    simp only [Prod.mk.injEq] at h
    exact h.2.symm

/-- Claim C9. Bootstrap broker is closed and never cached. (1), (2): whenever
`getAnyBroker` hands a bootstrap handle (`needClosing = true`) to
`getTopicMetadata` or `getConsumerMetadata`, the function leaves, whatever the
outcome of `Do`, with the trace it had after `getAnyBroker` extended by the
request and then one `Close` of that handle, so the handle is closed exactly
once more than before. (3): for every state whose stored handles were
allocated before, every handle built by a bootstrap `broker.New` during a
`Partitions`, `Leader` or `Coordinator` call is, after the call, a value of
neither the brokers registry, the leader map nor the coordinator map. (4): a
handle taken from the registry (`needClosing = false`) is not closed: the
function only appends the request to the trace. -/
theorem bootstrap_closed_never_cached (w : World) (c : C) :
    (∀ topic b c1, getAnyBroker w c = (.ok (b, true), c1) →
      (getTopicMetadata w topic c).2.trace
          = Event.close b :: Event.doTopicMetadata b topic :: c1.trace ∧
        closeCount b (getTopicMetadata w topic c).2.trace = closeCount b c.trace + 1) ∧
    (∀ group b c1, getAnyBroker w c = (.ok (b, true), c1) →
      (getConsumerMetadata w group c).2.trace
          = Event.close b :: Event.doConsumerMetadata b group :: c1.trace ∧
        closeCount b (getConsumerMetadata w group c).2.trace = closeCount b c.trace + 1) ∧
    (Allocated c → ∀ call evs addr b, (callStep w call c).trace = evs ++ c.trace →
      Event.brokerNew .bootstrap addr (some b) ∈ evs →
      b ∉ mapVals (callStep w call c).brokers ∧
        b ∉ mapVals (callStep w call c).topicPartitionLeader ∧
        b ∉ mapVals (callStep w call c).groupCoordinator) ∧
    (∀ topic group b c1, getAnyBroker w c = (.ok (b, false), c1) →
      (getTopicMetadata w topic c).2.trace = Event.doTopicMetadata b topic :: c.trace ∧
        (getConsumerMetadata w group c).2.trace
          = Event.doConsumerMetadata b group :: c.trace) := by
  refine ⟨?_, ?_, ?_, ?_⟩
  · intro topic b c1 h
    have hc := closeCount_getAnyBroker w c b
    rw [h] at hc
    rw [getTopicMetadata_of_broker w topic c c1 b true h]
    refine ⟨by simp [closeIf], ?_⟩
    simp only [closeIf, if_true, closeCount] at hc ⊢
    simp [List.countP_cons, hc]
  · intro group b c1 h
    have hc := closeCount_getAnyBroker w c b
    rw [h] at hc
    rw [getConsumerMetadata_of_broker w group c c1 b true h]
    refine ⟨by simp [closeIf], ?_⟩
    simp only [closeIf, if_true, closeCount] at hc ⊢
    simp [List.countP_cons, hc]
  · intro ha call evs addr b htr hmem
    obtain ⟨evs0, h0, hb⟩ := (Step.callStep w call c).boot
    have : evs = evs0 := List.append_cancel_right (htr.symm.trans h0)
    subst this
    exact (hb ha addr b hmem).2
  · intro topic group b c1 h
    have hc := getAnyBroker_false_state w c c1 b h
    subst hc
    rw [getTopicMetadata_of_broker w topic c1 c1 b false h,
      getConsumerMetadata_of_broker w group c1 c1 b false h]
    simp [closeIf]

theorem bootstrap_closed_never_cached_witness :
    closeCount ⟨0, "b:2"⟩ (getTopicMetadata seedWorld "t" (New seedConfig)).2.trace = 1 ∧
    (⟨0, "b:2"⟩ : B) ∉ mapVals (callStep seedWorld (.partitions "t") (New seedConfig)).brokers ∧
    (getTopicMetadata quietWorld "t" knownClient).2.trace
      = [Event.doTopicMetadata ⟨0, "h:1"⟩ "t"] :=
  ⟨((bootstrap_closed_never_cached seedWorld (New seedConfig)).1 "t" ⟨0, "b:2"⟩
      (getAnyBroker seedWorld (New seedConfig)).2 (by decide)).2,
   ((bootstrap_closed_never_cached seedWorld (New seedConfig)).2.2.1
      ⟨fun _ h => (by cases h), fun _ h => (by cases h), fun _ h => (by cases h)⟩
      (.partitions "t")
      [Event.close ⟨0, "b:2"⟩, Event.doTopicMetadata ⟨0, "b:2"⟩ "t",
        Event.brokerNew .bootstrap "b:2" (some ⟨0, "b:2"⟩),
        Event.brokerNew .bootstrap "a:1" none]
      "b:2" ⟨0, "b:2"⟩ (by decide) (by decide)).1,
   ((bootstrap_closed_never_cached quietWorld knownClient).2.2.2 "t" "g" ⟨0, "h:1"⟩
      knownClient (by decide)).1⟩

/-! ## Partitions -/

theorem topicRequests_cons_do (b : B) (topic : String) (tr : List Event) :
    topicRequests (Event.doTopicMetadata b topic :: tr) = topicRequests tr + 1 := by
  simp [topicRequests, List.countP_cons]

theorem topicRequests_cons_close (b : B) (tr : List Event) :
    topicRequests (Event.close b :: tr) = topicRequests tr := by
  simp [topicRequests, List.countP_cons]

theorem topicRequests_updateFromTopicMetadata (w : World) (topic : String) (c c1 : C)
    (x : B × Bool) (h : getAnyBroker w c = (.ok x, c1)) :
    topicRequests (updateFromTopicMetadata w topic c).2.trace = topicRequests c.trace + 1 := by
  obtain ⟨b, needClosing⟩ := x
  have hc : topicRequests c1.trace = topicRequests c.trace := by
    have := countP_getAnyBroker
      (fun e => match e with
        | .doTopicMetadata _ _ => true
        | _ => false) (fun _ _ _ => rfl) w c
    rw [h] at this
    exact this
  have hm : topicRequests (getTopicMetadata w topic c).2.trace = topicRequests c.trace + 1 := by
    rw [getTopicMetadata_of_broker w topic c c1 b needClosing h]
    cases needClosing
    · simp [closeIf, topicRequests_cons_do, hc]
    · simp [closeIf, topicRequests_cons_do, topicRequests_cons_close, hc]
  unfold updateFromTopicMetadata
  rcases hg : getTopicMetadata w topic c with ⟨r, c2⟩
  rw [hg] at hm
  cases r with
  | error err => exact hm
  | ok m =>
    simp only
    rw [(findTopic_frame topic m.TopicMetadatas _).1]
    have := countP_registerBrokers
      (fun e => match e with
        | .doTopicMetadata _ _ => true
        | _ => false) (fun _ _ _ => rfl) w m.Brokers c2
    exact this.trans hm

theorem Partitions_state_of_miss (w : World) (topic : String) (c : C)
    (h : mapGet topic c.topicPartitions = none) :
    (Partitions w topic c).2 = (updateFromTopicMetadata w topic c).2 := by
  unfold Partitions
  rw [h]
  simp only
  rcases updateFromTopicMetadata w topic c with ⟨r, c1⟩
  cases r with
  | some err => rfl
  | none =>
    simp only
    cases mapGet topic c1.topicPartitions <;> rfl

theorem Partitions_cached (w : World) (topic : String) (c c1 : C) (l : List Int)
    (h : Partitions w topic c = (.ok l, c1)) : mapGet topic c1.topicPartitions = some l := by
  unfold Partitions at h
  cases hk : mapGet topic c.topicPartitions with
  | some l0 =>
    rw [hk] at h
    simp only [Prod.mk.injEq, Except.ok.injEq] at h
    rw [← h.2, hk, h.1]
  | none =>
    rw [hk] at h
    simp only at h
    rcases hu : updateFromTopicMetadata w topic c with ⟨r, c2⟩
    rw [hu] at h
    cases r with
    | some err => simp at h
    | none =>
      simp only at h
      cases hk2 : mapGet topic c2.topicPartitions with
      | none =>
        rw [hk2] at h
        simp at h
      | some l2 =>
        rw [hk2] at h
        simp only [Prod.mk.injEq, Except.ok.injEq] at h
        rw [← h.2, hk2, h.1]

/-- Claim C1. Cache-then-miss for `Partitions`. On a client whose four maps are
empty and for which `getBootstrapBroker` yields a broker, `Partitions(topic)`
adds exactly one topic-metadata request to the trace; and whenever
`Partitions(topic)` returns a list without error, the same call in the state
it left returns the same list and leaves the whole state, the four maps and
the trace (no request of any kind), unchanged. -/
theorem partitions_cache_then_miss (w : World) (topic : String) (c : C) :
    (c.brokers = [] → c.topicPartitions = [] → c.topicPartitionLeader = [] →
      c.groupCoordinator = [] → (∃ b c1, getBootstrapBroker w c = (.ok b, c1)) →
      topicRequests (Partitions w topic c).2.trace = topicRequests c.trace + 1) ∧
    (∀ l c1, Partitions w topic c = (.ok l, c1) → Partitions w topic c1 = (.ok l, c1)) := by
  constructor
  · intro hb ht _ _ hboot
    obtain ⟨b, c1, hboot⟩ := hboot
    have hmiss : mapGet topic c.topicPartitions = none := by rw [ht]; rfl
    rw [Partitions_state_of_miss w topic c hmiss]
    have hany : getAnyBroker w c = (.ok (b, true), c1) := by
      rw [getAnyBroker_of_empty w c hb]
      unfold getBootstrapBroker at hboot
      rw [hboot]
    exact topicRequests_updateFromTopicMetadata w topic c c1 (b, true) hany
  · intro l c1 h
    have hk := Partitions_cached w topic c c1 l h
    unfold Partitions
    rw [hk]

theorem partitions_cache_then_miss_witness :
    topicRequests (Partitions seedWorld "t" (New seedConfig)).2.trace = 1 ∧
    Partitions goodWorld "t" (Partitions goodWorld "t" (New seedConfig)).2
      = (.ok [0, 1], (Partitions goodWorld "t" (New seedConfig)).2) :=
  ⟨(partitions_cache_then_miss seedWorld "t" (New seedConfig)).1 rfl rfl rfl rfl
      ⟨⟨0, "b:2"⟩, (getBootstrapBroker seedWorld (New seedConfig)).2, by decide⟩,
   (partitions_cache_then_miss goodWorld "t" (New seedConfig)).2 [0, 1]
      (Partitions goodWorld "t" (New seedConfig)).2 (by decide)⟩

/-! ## Frames -/

theorem sameMaps_refl (c : C) : SameMaps c c := ⟨rfl, rfl, rfl, rfl, rfl⟩

theorem sameMaps_trans {c c1 c2 : C} (h1 : SameMaps c c1) (h2 : SameMaps c1 c2) :
    SameMaps c c2 :=
  ⟨h2.1.trans h1.1, h2.2.1.trans h1.2.1, h2.2.2.1.trans h1.2.2.1,
    h2.2.2.2.1.trans h1.2.2.2.1, h2.2.2.2.2.trans h1.2.2.2.2⟩

theorem sameMaps_brokerNew (w : World) (site : Site) (addr : String) (c : C) :
    SameMaps c (brokerNew w site addr c).2 := by
  unfold Kafka.brokerNew
  split <;> exact ⟨rfl, rfl, rfl, rfl, rfl⟩

theorem sameMaps_bootstrapLoop (w : World) (addrs : List String) (c : C) :
    SameMaps c (bootstrapLoop w addrs c).2 := by
  induction addrs generalizing c with
  | nil => exact sameMaps_refl c
  | cons a rest ih =>
    have h1 := sameMaps_brokerNew w .bootstrap a c
    unfold Kafka.bootstrapLoop
    rcases hb : Kafka.brokerNew w .bootstrap a c with ⟨r, c1⟩
    rw [hb] at h1
    cases r with
    | some b => exact h1
    | none => exact sameMaps_trans h1 (ih c1)

theorem sameMaps_getAnyBroker (w : World) (c : C) : SameMaps c (getAnyBroker w c).2 := by
  by_cases h : c.brokers = []
  · rw [getAnyBroker_of_empty w c h]
    have h1 := sameMaps_bootstrapLoop w c.config.Brokers c
    rcases hb : Kafka.bootstrapLoop w c.config.Brokers c with ⟨r, c1⟩
    rw [hb] at h1
    cases r <;> exact h1
  · obtain ⟨b, _, hb⟩ := getAnyBroker_of_nonempty w c h
    rw [hb]
    exact sameMaps_refl c

theorem sameMaps_getTopicMetadata (w : World) (topic : String) (c : C) :
    SameMaps c (getTopicMetadata w topic c).2 := by
  have h1 := sameMaps_getAnyBroker w c
  unfold Kafka.getTopicMetadata
  rcases hb : Kafka.getAnyBroker w c with ⟨r, c1⟩
  rw [hb] at h1
  rcases r with err | ⟨broker, needClosing⟩
  · exact h1
  · cases needClosing <;> exact h1

theorem sameMaps_getConsumerMetadata (w : World) (group : String) (c : C) :
    SameMaps c (getConsumerMetadata w group c).2 := by
  have h1 := sameMaps_getAnyBroker w c
  unfold Kafka.getConsumerMetadata
  rcases hb : Kafka.getAnyBroker w c with ⟨r, c1⟩
  rw [hb] at h1
  rcases r with err | ⟨broker, needClosing⟩
  · exact h1
  · cases needClosing <;> exact h1

theorem registerBrokers_frame (w : World) (bs : List BrokerInfo) (c : C) :
    (registerBrokers w bs c).topicPartitions = c.topicPartitions ∧
    (registerBrokers w bs c).topicPartitionLeader = c.topicPartitionLeader ∧
    (registerBrokers w bs c).groupCoordinator = c.groupCoordinator ∧
    (registerBrokers w bs c).config = c.config := by
  induction bs generalizing c with
  | nil => exact ⟨rfl, rfl, rfl, rfl⟩
  | cons b rest ih =>
    unfold registerBrokers
    cases hk : mapGet b.NodeID c.brokers with
    | some _ => exact ih c
    | none =>
      simp only
      have h1 := sameMaps_brokerNew w .registry (brokerAddr b) c
      rcases hb : Kafka.brokerNew w .registry (brokerAddr b) c with ⟨r, c1⟩
      rw [hb] at h1
      obtain ⟨_, h2, h3, h4, h5⟩ := h1
      cases r with
      | none =>
        obtain ⟨i1, i2, i3, i4⟩ := ih c1
        exact ⟨i1.trans h2, i2.trans h3, i3.trans h4, i4.trans h5⟩
      | some broker =>
        obtain ⟨i1, i2, i3, i4⟩ := ih { c1 with brokers := mapSet b.NodeID broker c1.brokers }
        exact ⟨i1.trans h2, i2.trans h3, i3.trans h4, i4.trans h5⟩

/-! ## Topic-metadata refresh -/

theorem setLeaders_get_other (topic : String) (pms : List PartitionMetadata) (c : C)
    (key : String × Int) (h : ∀ pm ∈ pms, (topic, pm.PartitionID) ≠ key) :
    mapGet key (setLeaders topic pms c).topicPartitionLeader
      = mapGet key c.topicPartitionLeader := by
  induction pms generalizing c with
  | nil => rfl
  | cons p rest ih =>
    have hrest : ∀ pm ∈ rest, (topic, pm.PartitionID) ≠ key :=
      fun pm hpm => h pm (List.mem_cons_of_mem _ hpm)
    have hp : key ≠ (topic, p.PartitionID) := Ne.symm (h p (List.mem_cons_self _ _))
    unfold setLeaders
    cases hk : mapGet p.Leader c.brokers with
    | none => exact ih c hrest
    | some broker =>
      simp only
      rw [ih _ hrest]
      exact mapGet_mapSet_ne hp broker _

/-- With pairwise distinct partition ids, the loop over the partitions sets
the leader of a partition whose leader node is registered and leaves the
entry of a partition whose leader node is not registered as it was. -/
theorem setLeaders_get (topic : String) (pms : List PartitionMetadata) (c : C)
    (hnd : (pms.map (·.PartitionID)).Nodup) (pm : PartitionMetadata) (hpm : pm ∈ pms) :
    mapGet (topic, pm.PartitionID) (setLeaders topic pms c).topicPartitionLeader
      = match mapGet pm.Leader c.brokers with
        | some broker => some broker
        | none => mapGet (topic, pm.PartitionID) c.topicPartitionLeader := by
  induction pms generalizing c with
  | nil => cases hpm
  | cons p rest ih =>
    rw [List.map_cons, List.nodup_cons] at hnd
    obtain ⟨hp, hnd⟩ := hnd
    have hother : ∀ q ∈ rest, (topic, q.PartitionID) ≠ (topic, p.PartitionID) := by
      intro q hq heq
      apply hp
      have : q.PartitionID = p.PartitionID := (Prod.mk.injEq _ _ _ _ ▸ heq).2
      rw [← this]
      exact List.mem_map_of_mem (·.PartitionID) hq
    rcases List.mem_cons.1 hpm with heq | hmem
    · subst heq
      unfold setLeaders
      cases hk : mapGet pm.Leader c.brokers with
      | none =>
        simp only
        exact setLeaders_get_other topic rest c _ hother
      | some broker =>
        simp only
        rw [setLeaders_get_other topic rest _ _ hother]
        exact mapGet_mapSet_self _ _ _
    · have hne : (topic, pm.PartitionID) ≠ (topic, p.PartitionID) := hother pm hmem
      unfold setLeaders
      cases hk : mapGet p.Leader c.brokers with
      | none =>
        simp only
        exact ih c hnd hmem
      | some broker =>
        simp only
        rw [ih _ hnd hmem]
        simp only
        rw [mapGet_mapSet_ne hne]

theorem findTopic_absent (topic : String) (ts : List TopicMetadata) (c : C)
    (h : ∀ e ∈ ts, e.TopicName ≠ topic) : findTopic topic ts c = (some .topicNotFound, c) := by
  induction ts with
  | nil => rfl
  | cons t rest ih =>
    unfold findTopic
    rw [if_neg (h t (List.mem_cons_self _ _))]
    exact ih (fun e he => h e (List.mem_cons_of_mem _ he))

theorem findTopic_found (topic : String) (ts : List TopicMetadata) (c : C) (e : TopicMetadata)
    (h : ts.find? (fun t => decide (t.TopicName = topic)) = some e) :
    findTopic topic ts c
      = (none,
          { setLeaders topic e.PartitionMetadatas c with
            topicPartitions :=
              mapSet topic (e.PartitionMetadatas.map (·.PartitionID))
                (setLeaders topic e.PartitionMetadatas c).topicPartitions }) := by
  induction ts with
  | nil => simp at h
  | cons t rest ih =>
    unfold findTopic
    by_cases ht : t.TopicName = topic
    · rw [if_pos ht]
      rw [List.find?_cons_of_pos _ (by simpa using ht)] at h
      cases h
      rfl
    · rw [if_neg ht]
      rw [List.find?_cons_of_neg _ (by simpa using ht)] at h
      exact ih h

theorem updateFromTopicMetadata_of_response (w : World) (topic : String) (c c1 : C)
    (m : TopicMetadataResponse) (hm : getTopicMetadata w topic c = (.ok m, c1)) :
    updateFromTopicMetadata w topic c
      = findTopic topic m.TopicMetadatas (registerBrokers w m.Brokers c1) := by
  simp [updateFromTopicMetadata, hm]

/-- Claim C2, amended. Topic-metadata refresh result. Let `m` be the response
obtained by `getTopicMetadata` without error. `updateFromTopicMetadata(topic)`
returns `ErrTopicNotFound` exactly when no entry of `m.TopicMetadatas` is
named `topic`, and nil when some entry is. For the first entry `e` named
`topic` in response order: `topicPartitions[topic]` is the list of the
partition ids of `e`, the registry is the one left by the registration step,
and, provided the partition ids of `e` are pairwise distinct, every partition
of `e` whose leader node id is in that registry has the registered handle as
its leader entry, while the leader entry of a partition whose leader node id
is not registered is what it was before the call. -/
theorem topic_refresh_result (w : World) (topic : String) (c c1 : C)
    (m : TopicMetadataResponse) (hm : getTopicMetadata w topic c = (.ok m, c1)) :
    ((updateFromTopicMetadata w topic c).1 = some .topicNotFound ↔
        ∀ e ∈ m.TopicMetadatas, e.TopicName ≠ topic) ∧
    ((∃ e ∈ m.TopicMetadatas, e.TopicName = topic) →
        (updateFromTopicMetadata w topic c).1 = none) ∧
    (∀ e, m.TopicMetadatas.find? (fun t => decide (t.TopicName = topic)) = some e →
      mapGet topic (updateFromTopicMetadata w topic c).2.topicPartitions
          = some (e.PartitionMetadatas.map (·.PartitionID)) ∧
        (updateFromTopicMetadata w topic c).2.brokers
          = (registerBrokers w m.Brokers c1).brokers ∧
        ((e.PartitionMetadatas.map (·.PartitionID)).Nodup →
          ∀ pm ∈ e.PartitionMetadatas,
            (∀ broker, mapGet pm.Leader (registerBrokers w m.Brokers c1).brokers = some broker →
              mapGet (topic, pm.PartitionID)
                  (updateFromTopicMetadata w topic c).2.topicPartitionLeader = some broker) ∧
            (mapGet pm.Leader (registerBrokers w m.Brokers c1).brokers = none →
              mapGet (topic, pm.PartitionID)
                  (updateFromTopicMetadata w topic c).2.topicPartitionLeader
                = mapGet (topic, pm.PartitionID) c.topicPartitionLeader))) := by
  rw [updateFromTopicMetadata_of_response w topic c c1 m hm]
  have hfound : ∀ e, m.TopicMetadatas.find? (fun t => decide (t.TopicName = topic)) = some e →
      findTopic topic m.TopicMetadatas (registerBrokers w m.Brokers c1)
        = (none,
            { setLeaders topic e.PartitionMetadatas (registerBrokers w m.Brokers c1) with
              topicPartitions :=
                mapSet topic (e.PartitionMetadatas.map (·.PartitionID))
                  (setLeaders topic e.PartitionMetadatas
                    (registerBrokers w m.Brokers c1)).topicPartitions }) :=
    fun e he => findTopic_found topic m.TopicMetadatas _ e he
  have hleader : (registerBrokers w m.Brokers c1).topicPartitionLeader
      = c.topicPartitionLeader := by
    have h1 := sameMaps_getTopicMetadata w topic c
    rw [hm] at h1
    exact (registerBrokers_frame w m.Brokers c1).2.1.trans h1.2.2.1
  refine ⟨⟨fun h e he hname => ?_, fun h => ?_⟩, fun h => ?_, fun e he => ?_⟩
  · cases hf : m.TopicMetadatas.find? (fun t => decide (t.TopicName = topic)) with
    | none =>
      have := List.find?_eq_none.1 hf e he
      exact this (by simpa using hname)
    | some e1 =>
      rw [hfound e1 hf] at h
      cases h
  · rw [findTopic_absent topic m.TopicMetadatas _ h]
  · obtain ⟨e, he, hname⟩ := h
    cases hf : m.TopicMetadatas.find? (fun t => decide (t.TopicName = topic)) with
    | none =>
      have := List.find?_eq_none.1 hf e he
      exact absurd (by simpa using hname) this
    | some e1 => rw [hfound e1 hf]
  · rw [hfound e he]
    refine ⟨mapGet_mapSet_self _ _ _, (setLeaders_frame topic e.PartitionMetadatas _).2.1, ?_⟩
    intro hnd pm hpm
    have hget := setLeaders_get topic e.PartitionMetadatas
      (registerBrokers w m.Brokers c1) hnd pm hpm
    constructor
    · intro broker hb
      rw [hb] at hget
      exact hget
    · intro hb
      rw [hb] at hget
      simp only at hget
      rw [← hleader]
      exact hget

theorem topic_refresh_result_witness :
    mapGet ("t", 0)
        (updateFromTopicMetadata goodWorld "t" knownClient).2.topicPartitionLeader
      = some ⟨0, "h:1"⟩ ∧
    mapGet ("t", 1)
        (updateFromTopicMetadata goodWorld "t" knownClient).2.topicPartitionLeader
      = mapGet ("t", 1) knownClient.topicPartitionLeader :=
  ⟨((((topic_refresh_result goodWorld "t" knownClient
        (getTopicMetadata goodWorld "t" knownClient).2 goodResponse (by decide)).2.2
        ⟨"t", [⟨0, 1⟩, ⟨1, 7⟩]⟩ (by decide)).2.2 (by decide)
        ⟨0, 1⟩ (by decide)).1 ⟨0, "h:1"⟩ (by decide)),
   ((((topic_refresh_result goodWorld "t" knownClient
        (getTopicMetadata goodWorld "t" knownClient).2 goodResponse (by decide)).2.2
        ⟨"t", [⟨0, 1⟩, ⟨1, 7⟩]⟩ (by decide)).2.2 (by decide)
        ⟨1, 7⟩ (by decide)).2 (by decide))⟩

/-- Claim C2, counterexample. The response `dupResponse` is obtained without
error and its entry for `t` lists partition 0 first with leader node 1; node 1
is registered after the registration step, with handle number 1, yet the
leader entry of `(t, 0)` after `updateFromTopicMetadata` is the handle of
node 2, named by the second entry for partition 0. -/
theorem topic_refresh_duplicate_partition :
    getTopicMetadata dupWorld "t" (New seedConfig)
        = (.ok dupResponse, (getTopicMetadata dupWorld "t" (New seedConfig)).2) ∧
      dupResponse.TopicMetadatas.find? (fun t => decide (t.TopicName = "t"))
        = some ⟨"t", [⟨0, 1⟩, ⟨0, 2⟩]⟩ ∧
      mapGet 1 (registerBrokers dupWorld dupResponse.Brokers
          (getTopicMetadata dupWorld "t" (New seedConfig)).2).brokers = some ⟨1, "h:1"⟩ ∧
      mapGet ("t", 0)
          (updateFromTopicMetadata dupWorld "t" (New seedConfig)).2.topicPartitionLeader
        = some ⟨2, "h:2"⟩ ∧
      mapGet ("t", 0)
          (updateFromTopicMetadata dupWorld "t" (New seedConfig)).2.topicPartitionLeader
        ≠ some ⟨1, "h:1"⟩ := by
  decide

/-! ## Consumer-metadata refresh -/

theorem topicRequests_getConsumerMetadata (w : World) (group : String) (c : C) :
    topicRequests (getConsumerMetadata w group c).2.trace = topicRequests c.trace := by
  have h1 := countP_getAnyBroker
    (fun e => match e with
      | .doTopicMetadata _ _ => true
      | _ => false) (fun _ _ _ => rfl) w c
  unfold getConsumerMetadata
  rcases hb : getAnyBroker w c with ⟨r, c1⟩
  rw [hb] at h1
  rcases r with err | ⟨broker, needClosing⟩
  · exact h1
  · cases needClosing
    · simpa [closeIf, topicRequests, List.countP_cons] using h1
    · simpa [closeIf, topicRequests, List.countP_cons] using h1

/-- Claim C6, amended. Consumer-metadata refresh. Let `m` be the response
obtained by `getConsumerMetadata` without error, in state `c1`, and
`k = m.CoordinatorID`. If `k` is registered, `groupCoordinator[group]` is set
to `brokers[k]`, nil is returned and no topic-metadata request is issued.
Otherwise a topic-metadata refresh runs: if it returns an error, that error is
returned and the state is the one the refresh left (no coordinator is cached);
if it returns nil, the registry is checked again, `brokers[k]` is cached and
nil returned when `k` is now registered, and `ErrCoordNotFound` is returned
when it is not. -/
theorem consumer_refresh_result (w : World) (topic group : String) (c c1 : C)
    (m : ConsumerMetadataResponse) (hm : getConsumerMetadata w group c = (.ok m, c1)) :
    (∀ broker, mapGet m.CoordinatorID c.brokers = some broker →
      updateFromConsumerMetadata w topic group c
          = (none, { c1 with groupCoordinator := mapSet group broker c1.groupCoordinator }) ∧
        topicRequests (updateFromConsumerMetadata w topic group c).2.trace
          = topicRequests c.trace) ∧
    (mapGet m.CoordinatorID c.brokers = none →
      (∀ err c2, updateFromTopicMetadata w topic c1 = (some err, c2) →
        updateFromConsumerMetadata w topic group c = (some err, c2)) ∧
      (∀ c2, updateFromTopicMetadata w topic c1 = (none, c2) →
        (∀ broker, mapGet m.CoordinatorID c2.brokers = some broker →
          updateFromConsumerMetadata w topic group c
            = (none, { c2 with groupCoordinator :=
                                 mapSet group broker c2.groupCoordinator })) ∧
        (mapGet m.CoordinatorID c2.brokers = none →
          updateFromConsumerMetadata w topic group c = (some .coordNotFound, c2)))) := by
  have hsame := sameMaps_getConsumerMetadata w group c
  have hreq := topicRequests_getConsumerMetadata w group c
  rw [hm] at hsame hreq
  have hb : c1.brokers = c.brokers := hsame.1
  refine ⟨fun broker hk => ?_, fun hk => ⟨fun err c2 hu => ?_, fun c2 hu => ⟨fun broker hk2 => ?_,
    fun hk2 => ?_⟩⟩⟩
  · rw [← hb] at hk
    have : updateFromConsumerMetadata w topic group c
        = (none, { c1 with groupCoordinator := mapSet group broker c1.groupCoordinator }) := by
      simp [updateFromConsumerMetadata, hm, hk]
    rw [this]
    exact ⟨rfl, hreq⟩
  · rw [← hb] at hk
    simp [updateFromConsumerMetadata, hm, hk, hu]
  · rw [← hb] at hk
    simp [updateFromConsumerMetadata, hm, hk, hu, hk2]
  · rw [← hb] at hk
    simp [updateFromConsumerMetadata, hm, hk, hu, hk2]

theorem consumer_refresh_result_witness :
    (updateFromConsumerMetadata coordWorld "t" "g" knownClient).1 = none ∧
    updateFromConsumerMetadata lostTopicWorld "t" "g" (New seedConfig)
      = (some .topicNotFound,
          (updateFromTopicMetadata lostTopicWorld "t"
            (getConsumerMetadata lostTopicWorld "g" (New seedConfig)).2).2) ∧
    updateFromConsumerMetadata goodWorld "t" "g" (New seedConfig)
      = (none,
          { (updateFromTopicMetadata goodWorld "t"
              (getConsumerMetadata goodWorld "g" (New seedConfig)).2).2 with
            groupCoordinator := mapSet "g" ⟨3, "h:2"⟩
              (updateFromTopicMetadata goodWorld "t"
                (getConsumerMetadata goodWorld "g" (New seedConfig)).2).2.groupCoordinator }) :=
  ⟨congrArg Prod.fst
      (((consumer_refresh_result coordWorld "t" "g" knownClient
        (getConsumerMetadata coordWorld "g" knownClient).2 ⟨1⟩ (by decide)).1
        ⟨0, "h:1"⟩ (by decide)).1),
   ((consumer_refresh_result lostTopicWorld "t" "g" (New seedConfig)
      (getConsumerMetadata lostTopicWorld "g" (New seedConfig)).2 ⟨5⟩ (by decide)).2
      (by decide)).1 .topicNotFound
      (updateFromTopicMetadata lostTopicWorld "t"
        (getConsumerMetadata lostTopicWorld "g" (New seedConfig)).2).2 (by decide),
   (((consumer_refresh_result goodWorld "t" "g" (New seedConfig)
      (getConsumerMetadata goodWorld "g" (New seedConfig)).2 ⟨2⟩ (by decide)).2 (by decide)).2
      (updateFromTopicMetadata goodWorld "t"
        (getConsumerMetadata goodWorld "g" (New seedConfig)).2).2 (by decide)).1
    ⟨3, "h:2"⟩ (by decide)⟩

/-- Claim C6, counterexample. In `lostTopicWorld` the consumer-metadata response
names node 5, which is not registered; the topic-metadata refresh registers
node 5 but its response does not list topic `t`. `updateFromConsumerMetadata`
returns `ErrTopicNotFound` although node 5 is now registered, and no
coordinator is cached for the group. -/
theorem consumer_refresh_propagates_error :
    getConsumerMetadata lostTopicWorld "g" (New seedConfig)
        = (.ok ⟨5⟩, (getConsumerMetadata lostTopicWorld "g" (New seedConfig)).2) ∧
      mapGet 5 (New seedConfig).brokers = none ∧
      (updateFromConsumerMetadata lostTopicWorld "t" "g" (New seedConfig)).1
        = some .topicNotFound ∧
      mapGet 5 (updateFromConsumerMetadata lostTopicWorld "t" "g" (New seedConfig)).2.brokers
        = some ⟨2, "h:5"⟩ ∧
      mapGet "g"
          (updateFromConsumerMetadata lostTopicWorld "t" "g" (New seedConfig)).2.groupCoordinator
        = none := by
  decide

/-! ## Producer -/

theorem produce_of_entry {S : Type} (w : World) (sel : Partitioner S) (topic : String)
    (key value : Bytes) (p : P S) (s0 : S) (p0 : P S) (h : LoopEntry w sel topic p s0 p0)
    (fuel : Nat) :
    Produce w sel fuel topic key value p = produceLoop w sel topic key value fuel 0 s0 p0 := by
  rcases h with ⟨hget, hp⟩ | ⟨hget, partitions, c1, hparts, hs, hp⟩
  · subst hp
    simp [Produce, hget]
  · subst hs hp
    simp [Produce, hget, hparts]

theorem produceLoop_continue {S : Type} (w : World) (sel : Partitioner S) (topic : String)
    (key value : Bytes) (fuel i : Nat) (s s1 : S) (p p1 : P S)
    (h : loopNext w sel topic key i s p = some (s1, p1)) :
    produceLoop w sel topic key value (fuel + 1) i s p
      = produceLoop w sel topic key value fuel (i + 1) s1 p1 := by
  unfold loopNext at h
  by_cases hi : i < sel.count s
  · rw [if_pos hi] at h
    rcases hp : sel.partition s key with ⟨r, s2⟩
    rw [hp] at h
    cases r with
    | error e => simp at h
    | ok partition =>
      simp only at h
      rcases hl : Leader w topic partition p.client with ⟨r2, c1⟩
      rw [hl] at h
      cases r2 with
      | ok b => simp at h
      | error e =>
        simp only [Option.some.injEq, Prod.mk.injEq] at h
        obtain ⟨h1, h2⟩ := h
        subst h1 h2
        conv_lhs => unfold produceLoop
        simp only [hi, if_true, hp, hl]
  · rw [if_neg hi] at h
    cases h

theorem produceLoop_after {S : Type} (w : World) (sel : Partitioner S) (topic : String)
    (key value : Bytes) (fuel k j : Nat) (s s1 : S) (p p1 : P S)
    (h : loopAfter w sel topic key k j s p = some (s1, p1)) :
    produceLoop w sel topic key value (fuel + k) j s p
      = produceLoop w sel topic key value fuel (j + k) s1 p1 := by
  induction k generalizing j s p with
  | zero =>
    simp only [loopAfter, Option.some.injEq, Prod.mk.injEq] at h
    obtain ⟨h1, h2⟩ := h
    subst h1 h2
    rfl
  | succ k ih =>
    unfold loopAfter at h
    cases hn : loopNext w sel topic key j s p with
    | none =>
      rw [hn] at h
      cases h
    | some sp =>
      obtain ⟨s2, p2⟩ := sp
      rw [hn] at h
      simp only at h
      have h1 := produceLoop_continue w sel topic key value (fuel + k) j s s2 p p2 hn
      have h2 := ih (j + 1) s2 p2 h
      rw [show fuel + (k + 1) = fuel + k + 1 from rfl, h1, h2]
      rw [show j + 1 + k = j + (k + 1) from by omega]

theorem produceLoop_do_error {S : Type} (w : World) (sel : Partitioner S) (topic : String)
    (key value : Bytes) (fuel i : Nat) (s s1 : S) (p : P S) (partition : Int) (leader : B)
    (c1 : C) (err : Err) (hi : i < sel.count s)
    (hpart : sel.partition s key = (.ok partition, s1))
    (hlead : Leader w topic partition p.client = (.ok leader, c1))
    (hdo : w.produce c1.trace leader topic partition key value = .error err) :
    produceLoop w sel topic key value (fuel + 1) i s p
      = if err = .conn then
          some (some err,
            { client := LeaderIsDown topic partition
                { c1 with trace :=
                    Event.doProduce leader topic partition key value :: c1.trace },
              topicPartitioner := mapSet topic (sel.skip s1 partition) p.topicPartitioner,
              calls := .leaderIsDown topic partition :: .skip partition ::
                .doProduce leader topic partition :: .leader topic partition ::
                .partition key :: p.calls })
        else
          some (some err,
            { client :=
                { c1 with trace :=
                    Event.doProduce leader topic partition key value :: c1.trace },
              topicPartitioner := mapSet topic s1 p.topicPartitioner,
              calls := .doProduce leader topic partition :: .leader topic partition ::
                .partition key :: p.calls }) := by
  conv_lhs => unfold produceLoop
  simp only [hi, if_true, hpart, hlead, hdo]

theorem produceLoop_do_ok {S : Type} (w : World) (sel : Partitioner S) (topic : String)
    (key value : Bytes) (fuel i : Nat) (s s1 : S) (p : P S) (partition : Int) (leader : B)
    (c1 : C) (resp : ProduceResponse) (hi : i < sel.count s)
    (hpart : sel.partition s key = (.ok partition, s1))
    (hlead : Leader w topic partition p.client = (.ok leader, c1))
    (hdo : w.produce c1.trace leader topic partition key value = .ok resp) :
    produceLoop w sel topic key value (fuel + 1) i s p
      = some (none,
          { client :=
              { c1 with trace :=
                  Event.doProduce leader topic partition key value :: c1.trace },
            topicPartitioner := mapSet topic s1 p.topicPartitioner,
            calls := warnings resp ++ (.doProduce leader topic partition ::
              .leader topic partition :: .partition key :: p.calls) }) := by
  conv_lhs => unfold produceLoop
  simp only [hi, if_true, hpart, hlead, hdo]

/-- Claim C4. Connectivity failure short-circuit. Let `Produce` enter its loop
and let the first `k` iterations end with `continue`, so that iteration `k`
starts with selector state `s` and producer state `pk`. If in iteration `k`
the selector returns `partition`, `Leader` resolves it to `leader` and
`leader.Do` returns an error, then `Produce` returns that error. When the
error is `ErrConn`, the calls made from iteration `k` on are exactly
`Partition`, `Leader`, `Do`, `Skip(partition)`, `LeaderIsDown(topic,
partition)`, in this order (the log is newest first), the selector stored for
the topic has `partition` skipped and the leader entry of `(topic, partition)`
is gone; for any other error they are exactly `Partition`, `Leader`, `Do`:
neither `Skip` nor `LeaderIsDown` is called. -/
theorem produce_connectivity_short_circuit {S : Type} (w : World) (sel : Partitioner S)
    (topic : String) (key value : Bytes) (p : P S) (s0 : S) (p0 : P S) (k : Nat) (s s1 : S)
    (pk : P S) (partition : Int) (leader : B) (c1 : C) (err : Err) (fuel : Nat)
    (hentry : LoopEntry w sel topic p s0 p0)
    (hiter : loopAfter w sel topic key k 0 s0 p0 = some (s, pk))
    (hk : k < sel.count s)
    (hpart : sel.partition s key = (.ok partition, s1))
    (hlead : Leader w topic partition pk.client = (.ok leader, c1))
    (hdo : w.produce c1.trace leader topic partition key value = .error err) :
    (err = .conn →
      Produce w sel (fuel + 1 + k) topic key value p
        = some (some .conn,
            { client := LeaderIsDown topic partition
                { c1 with trace :=
                    Event.doProduce leader topic partition key value :: c1.trace },
              topicPartitioner := mapSet topic (sel.skip s1 partition) pk.topicPartitioner,
              calls := .leaderIsDown topic partition :: .skip partition ::
                .doProduce leader topic partition :: .leader topic partition ::
                .partition key :: pk.calls }) ∧
      mapGet (topic, partition)
          (LeaderIsDown topic partition
            { c1 with trace :=
                Event.doProduce leader topic partition key value :: c1.trace }
            ).topicPartitionLeader = none) ∧
    (err ≠ .conn →
      Produce w sel (fuel + 1 + k) topic key value p
        = some (some err,
            { client :=
                { c1 with trace :=
                    Event.doProduce leader topic partition key value :: c1.trace },
              topicPartitioner := mapSet topic s1 pk.topicPartitioner,
              calls := .doProduce leader topic partition :: .leader topic partition ::
                .partition key :: pk.calls })) := by
  have hrun : Produce w sel (fuel + 1 + k) topic key value p
      = produceLoop w sel topic key value (fuel + 1) k s pk := by
    rw [produce_of_entry w sel topic key value p s0 p0 hentry,
      produceLoop_after w sel topic key value (fuel + 1) k 0 s0 s p0 pk hiter, Nat.zero_add]
  rw [hrun, produceLoop_do_error w sel topic key value fuel k s s1 pk partition leader c1 err
    hk hpart hlead hdo]
  constructor
  · intro he
    subst he
    exact ⟨by simp, mapGet_mapDel_self _ _⟩
  · intro he
    rw [if_neg he]

theorem produce_connectivity_short_circuit_witness :
    (Produce flakyWorld firstFit (0 + 1 + 1) "t" [] [] tProducer
        = some (some .conn,
            { client := LeaderIsDown "t" 1
                { (Leader flakyWorld "t" 0 leaderClient).2 with
                  trace := Event.doProduce ⟨1, "h:1"⟩ "t" 1 [] [] ::
                    (Leader flakyWorld "t" 0 leaderClient).2.trace },
              topicPartitioner := mapSet "t" ([0, 1, 2], [1, 0]) tProducer.topicPartitioner,
              calls := [.leaderIsDown "t" 1, .skip 1, .doProduce ⟨1, "h:1"⟩ "t" 1,
                .leader "t" 1, .partition [], .skip 0, .leader "t" 0, .partition []] })) ∧
    (Produce brokenWorld firstFit (0 + 1 + 1) "t" [] [] tProducer
        = some (some (.other 7),
            { client :=
                { (Leader brokenWorld "t" 0 leaderClient).2 with
                  trace := Event.doProduce ⟨1, "h:1"⟩ "t" 1 [] [] ::
                    (Leader brokenWorld "t" 0 leaderClient).2.trace },
              topicPartitioner := mapSet "t" ([0, 1, 2], [0]) tProducer.topicPartitioner,
              calls := [.doProduce ⟨1, "h:1"⟩ "t" 1, .leader "t" 1, .partition [],
                .skip 0, .leader "t" 0, .partition []] })) :=
  ⟨((produce_connectivity_short_circuit flakyWorld firstFit "t" [] [] tProducer
        ([0, 1, 2], []) tProducer 1 ([0, 1, 2], [0]) ([0, 1, 2], [0])
        { tProducer with client := (Leader flakyWorld "t" 0 leaderClient).2,
                         calls := [.skip 0, .leader "t" 0, .partition []] }
        1 ⟨1, "h:1"⟩ (Leader flakyWorld "t" 0 leaderClient).2 .conn 0
        (Or.inl ⟨rfl, rfl⟩) (by decide) (by decide) (by decide) (by decide) (by decide)).1
        rfl).1,
   (produce_connectivity_short_circuit brokenWorld firstFit "t" [] [] tProducer
        ([0, 1, 2], []) tProducer 1 ([0, 1, 2], [0]) ([0, 1, 2], [0])
        { tProducer with client := (Leader brokenWorld "t" 0 leaderClient).2,
                         calls := [.skip 0, .leader "t" 0, .partition []] }
        1 ⟨1, "h:1"⟩ (Leader brokenWorld "t" 0 leaderClient).2 (.other 7) 0
        (Or.inl ⟨rfl, rfl⟩) (by decide) (by decide) (by decide) (by decide) (by decide)).2
        (by decide)⟩

/-- Claim C10. Per-record acknowledgment codes never fail `Produce`. Let
`Produce` enter its loop and let the first `k` iterations end with `continue`.
If in iteration `k` the selector returns `partition`, `Leader` resolves it to
`leader` and `leader.Do` returns no error, then `Produce` returns nil
whatever the response holds; the calls made from iteration `k` on are exactly
`Partition`, `Leader`, `Do` and then one warning for each non-zero
acknowledgment code: neither `Skip` nor `LeaderIsDown` is called and no other
partition is attempted. -/
theorem produce_ignores_ack_codes {S : Type} (w : World) (sel : Partitioner S)
    (topic : String) (key value : Bytes) (p : P S) (s0 : S) (p0 : P S) (k : Nat) (s s1 : S)
    (pk : P S) (partition : Int) (leader : B) (c1 : C) (resp : ProduceResponse) (fuel : Nat)
    (hentry : LoopEntry w sel topic p s0 p0)
    (hiter : loopAfter w sel topic key k 0 s0 p0 = some (s, pk))
    (hk : k < sel.count s)
    (hpart : sel.partition s key = (.ok partition, s1))
    (hlead : Leader w topic partition pk.client = (.ok leader, c1))
    (hdo : w.produce c1.trace leader topic partition key value = .ok resp) :
    Produce w sel (fuel + 1 + k) topic key value p
        = some (none,
            { client :=
                { c1 with trace :=
                    Event.doProduce leader topic partition key value :: c1.trace },
              topicPartitioner := mapSet topic s1 pk.topicPartitioner,
              calls := warnings resp ++ (.doProduce leader topic partition ::
                .leader topic partition :: .partition key :: pk.calls) }) ∧
      ∀ call ∈ warnings resp, ∃ errCode : Int, errCode ≠ 0 ∧ call = .warnCode errCode := by
  have hrun : Produce w sel (fuel + 1 + k) topic key value p
      = produceLoop w sel topic key value (fuel + 1) k s pk := by
    rw [produce_of_entry w sel topic key value p s0 p0 hentry,
      produceLoop_after w sel topic key value (fuel + 1) k 0 s0 s p0 pk hiter, Nat.zero_add]
  rw [hrun, produceLoop_do_ok w sel topic key value fuel k s s1 pk partition leader c1 resp
    hk hpart hlead hdo]
  refine ⟨rfl, ?_⟩
  intro call hcall
  simp only [warnings, List.mem_reverse, List.mem_map, List.mem_filter,
    decide_eq_true_eq] at hcall
  obtain ⟨o, ⟨_, hne⟩, ho⟩ := hcall
  exact ⟨o.ErrorCode, hne, ho.symm⟩

theorem produce_ignores_ack_codes_witness :
    Produce ackWorld firstFit (0 + 1 + 1) "t" [] [] tProducer
        = some (none,
            { client :=
                { (Leader ackWorld "t" 0 leaderClient).2 with
                  trace := Event.doProduce ⟨1, "h:1"⟩ "t" 1 [] [] ::
                    (Leader ackWorld "t" 0 leaderClient).2.trace },
              topicPartitioner := mapSet "t" ([0, 1, 2], [0]) tProducer.topicPartitioner,
              calls := [.warnCode 3, .doProduce ⟨1, "h:1"⟩ "t" 1, .leader "t" 1,
                .partition [], .skip 0, .leader "t" 0, .partition []] }) :=
  (produce_ignores_ack_codes ackWorld firstFit "t" [] [] tProducer
      ([0, 1, 2], []) tProducer 1 ([0, 1, 2], [0]) ([0, 1, 2], [0])
      { tProducer with client := (Leader ackWorld "t" 0 leaderClient).2,
                       calls := [.skip 0, .leader "t" 0, .partition []] }
      1 ⟨1, "h:1"⟩ (Leader ackWorld "t" 0 leaderClient).2 [⟨[⟨0⟩, ⟨3⟩]⟩] 0
      (Or.inl ⟨rfl, rfl⟩) (by decide) (by decide) (by decide) (by decide) (by decide)).1

/-! ## Retry over partitions -/

theorem produceRequests_cons_doProduce (b : B) (topic : String) (q : Int) (key value : Bytes)
    (tr : List Event) :
    produceRequests (Event.doProduce b topic q key value :: tr) = produceRequests tr + 1 := by
  simp [produceRequests, List.countP_cons]

theorem produceRequests_updateFromTopicMetadata (w : World) (topic : String) (c : C) :
    produceRequests (updateFromTopicMetadata w topic c).2.trace = produceRequests c.trace := by
  have h1 := countP_getAnyBroker
    (fun e => match e with
      | .doProduce _ _ _ _ _ => true
      | _ => false) (fun _ _ _ => rfl) w c
  have hm : produceRequests (getTopicMetadata w topic c).2.trace = produceRequests c.trace := by
    unfold getTopicMetadata
    rcases hb : getAnyBroker w c with ⟨r, c1⟩
    rw [hb] at h1
    rcases r with err | ⟨broker, needClosing⟩
    · exact h1
    · cases needClosing
      · simpa [closeIf, produceRequests, List.countP_cons] using h1
      · simpa [closeIf, produceRequests, List.countP_cons] using h1
  unfold updateFromTopicMetadata
  rcases hg : getTopicMetadata w topic c with ⟨r, c2⟩
  rw [hg] at hm
  cases r with
  | error err => exact hm
  | ok m =>
    simp only
    rw [(findTopic_frame topic m.TopicMetadatas _).1]
    have := countP_registerBrokers
      (fun e => match e with
        | .doProduce _ _ _ _ _ => true
        | _ => false) (fun _ _ _ => rfl) w m.Brokers c2
    exact this.trans hm

/-- A leader lookup sends no produce request. -/
theorem produceRequests_Leader (w : World) (topic : String) (q : Int) (c : C) :
    produceRequests (Leader w topic q c).2.trace = produceRequests c.trace := by
  have h := produceRequests_updateFromTopicMetadata w topic c
  unfold Leader
  cases mapGet (topic, q) c.topicPartitionLeader with
  | some l => rfl
  | none =>
    simp only
    rcases hu : updateFromTopicMetadata w topic c with ⟨r, c2⟩
    rw [hu] at h
    cases r with
    | some err => exact h
    | none =>
      simp only
      cases mapGet (topic, q) c2.topicPartitionLeader <;> exact h

theorem skippedCalls_snoc (topic : String) (key : Bytes) (failed : List Int) (q : Int)
    (rest : List PCall) :
    skippedCalls topic key (failed ++ [q]) ++ rest
      = skippedCalls topic key failed ++
          (.skip q :: .leader topic q :: .partition key :: rest) := by
  induction failed with
  | nil => rfl
  | cons x xs ih =>
    show PCall.skip x :: PCall.leader topic x :: PCall.partition key ::
        (skippedCalls topic key (xs ++ [q]) ++ rest) = _
    rw [ih]
    rfl

/-- The loop of `Produce` succeeds at the first selected partition whose
leader resolves, after skipping the partitions selected before it. -/
theorem produceLoop_retry {S : Type} (w : World) (sel : Partitioner S) (topic : String)
    (key value : Bytes) (n : Nat) (J : S → Prop) (I : C → Prop) (avail : S → List Int)
    (good : Int → Bool)
    (hcount : ∀ s, J s → sel.count s = n)
    (hJpart : ∀ s q s1, J s → sel.partition s key = (.ok q, s1) → J s1)
    (hJskip : ∀ s q, J s → J (sel.skip s q))
    (hpart : ∀ s q s1, J s → sel.partition s key = (.ok q, s1) →
      q ∈ avail s ∧ avail s1 = avail s)
    (hnone : ∀ s e s1, J s → sel.partition s key = (.error e, s1) → avail s = [])
    (hskip : ∀ s q, J s → avail (sel.skip s q) = (avail s).filter (fun x => decide (x ≠ q)))
    (hbad : ∀ c q, I c → good q = false → ∃ e c1, Leader w topic q c = (.error e, c1) ∧ I c1)
    (hgood : ∀ c q, I c → good q = true →
      ∃ b c1 resp, Leader w topic q c = (.ok b, c1) ∧
        w.produce c1.trace b topic q key value = .ok resp) :
    ∀ (fuel i : Nat) (s : S) (p : P S), J s → I p.client → (avail s).length + i ≤ n →
      (avail s).length ≤ fuel → (∃ g ∈ avail s, good g = true) →
      ∃ failed g b resp p1 c c1,
        produceLoop w sel topic key value fuel i s p = some (none, p1) ∧
        (∀ q ∈ failed, good q = false) ∧ good g = true ∧ failed.length + i < n ∧
        I c ∧ Leader w topic g c = (.ok b, c1) ∧
        w.produce c1.trace b topic g key value = .ok resp ∧
        p1.client = { c1 with trace := Event.doProduce b topic g key value :: c1.trace } ∧
        produceRequests p1.client.trace = produceRequests p.client.trace + 1 ∧
        p1.calls = warnings resp ++ (.doProduce b topic g :: .leader topic g ::
          .partition key :: (skippedCalls topic key failed ++ p.calls)) := by
  intro fuel
  induction fuel with
  | zero =>
    intro i s p _ _ _ hfuel hg
    obtain ⟨g, hg, _⟩ := hg
    have : (avail s).length = 0 := Nat.le_zero.1 hfuel
    rw [List.length_eq_zero] at this
    rw [this] at hg
    cases hg
  | succ fuel ih =>
    intro i s p hJ hI hlen hfuel hg
    obtain ⟨g, hgmem, hgood1⟩ := hg
    have hpos : 0 < (avail s).length := List.length_pos_of_mem hgmem
    have hi : i < sel.count s := by
      rw [hcount s hJ]
      omega
    rcases hp : sel.partition s key with ⟨r, s1⟩
    cases r with
    | error e =>
      have := hnone s e s1 hJ hp
      rw [this] at hgmem
      cases hgmem
    | ok q =>
      obtain ⟨hq, hav⟩ := hpart s q s1 hJ hp
      have hJ1 := hJpart s q s1 hJ hp
      cases hgq : good q with
      | true =>
        obtain ⟨b, c1, resp, hl, hdo⟩ := hgood p.client q hI hgq
        have hreq : produceRequests c1.trace = produceRequests p.client.trace := by
          have := produceRequests_Leader w topic q p.client
          rw [hl] at this
          exact this
        refine ⟨[], q, b, resp, _, p.client, c1,
          produceLoop_do_ok w sel topic key value fuel i s s1 p q b c1 resp hi hp hl hdo,
          fun _ h => (by cases h), hgq, ?_, hI, hl, hdo, rfl, ?_, rfl⟩
        · simp only [List.length_nil, Nat.zero_add]
          rw [← hcount s hJ]
          exact hi
        · show produceRequests (Event.doProduce b topic q key value :: c1.trace) = _
          rw [produceRequests_cons_doProduce, hreq]
      | false =>
        obtain ⟨e, c1, hl, hI1⟩ := hbad p.client q hI hgq
        have hnext : loopNext w sel topic key i s p
            = some (sel.skip s1 q,
                { p with client := c1,
                         calls := .skip q :: .leader topic q :: .partition key :: p.calls }) := by
          simp only [loopNext, hi, if_true, hp, hl]
        rw [produceLoop_continue w sel topic key value fuel i s _ p _ hnext]
        have havs : avail (sel.skip s1 q) = (avail s).filter (fun x => decide (x ≠ q)) := by
          rw [hskip s1 q hJ1, hav]
        have hlt : (avail (sel.skip s1 q)).length < (avail s).length := by
          rw [havs]
          exact List.length_filter_lt_length_iff_exists.2 ⟨q, hq, by simp⟩
        have hgne : g ≠ q := by
          intro h
          rw [h, hgq] at hgood1
          cases hgood1
        have hgmem1 : g ∈ avail (sel.skip s1 q) := by
          rw [havs]
          exact List.mem_filter.2 ⟨hgmem, by simpa using hgne⟩
        have hreq : produceRequests c1.trace = produceRequests p.client.trace := by
          have := produceRequests_Leader w topic q p.client
          rw [hl] at this
          exact this
        obtain ⟨failed, g1, b, resp, p1, c2, c3, hres, hfailed, hg1, hcnt, hI2, hl2, hdo2,
            hclient, hsent, hcalls⟩ :=
          ih (i + 1) (sel.skip s1 q)
            { p with client := c1,
                     calls := .skip q :: .leader topic q :: .partition key :: p.calls }
            (hJskip s1 q hJ1) hI1 (by omega) (by omega) ⟨g, hgmem1, hgood1⟩
        refine ⟨failed ++ [q], g1, b, resp, p1, c2, c3, hres, ?_, hg1, ?_, hI2, hl2, hdo2,
          hclient, ?_, ?_⟩
        · intro x hx
          rcases List.mem_append.1 hx with hx | hx
          · exact hfailed x hx
          · rw [List.mem_singleton.1 hx]
            exact hgq
        · rw [List.length_append, List.length_singleton]
          omega
        · rw [hsent]
          show produceRequests c1.trace + 1 = _
          rw [hreq]
        · rw [hcalls, skippedCalls_snoc]

/-- The loop of `Produce` fails with `ErrProduceFailed`, without any `Do`,
when every leader lookup fails. -/
theorem produceLoop_exhaust {S : Type} (w : World) (sel : Partitioner S) (topic : String)
    (key value : Bytes) (n : Nat) (J : S → Prop) (I : C → Prop)
    (hcount : ∀ s, J s → sel.count s = n)
    (hJpart : ∀ s q s1, J s → sel.partition s key = (.ok q, s1) → J s1)
    (hJskip : ∀ s q, J s → J (sel.skip s q))
    (hbad : ∀ c q, I c → ∃ e c1, Leader w topic q c = (.error e, c1) ∧ I c1) :
    ∀ (fuel i : Nat) (s : S) (p : P S), J s → I p.client → i ≤ n → n - i < fuel →
      ∃ failed p1,
        produceLoop w sel topic key value fuel i s p = some (some .produceFailed, p1) ∧
        produceRequests p1.client.trace = produceRequests p.client.trace ∧
        (failed.length + i = n ∧
            p1.calls = .warnNoPartition :: (skippedCalls topic key failed ++ p.calls) ∨
          failed.length + i < n ∧
            p1.calls = .warnNoPartition :: .delete topic :: .partition key ::
              (skippedCalls topic key failed ++ p.calls)) := by
  intro fuel
  induction fuel with
  | zero =>
    intro i s p _ _ _ hfuel
    omega
  | succ fuel ih =>
    intro i s p hJ hI hin hfuel
    by_cases hi : i < n
    · have hi2 : i < sel.count s := by rw [hcount s hJ]; exact hi
      rcases hp : sel.partition s key with ⟨r, s1⟩
      cases r with
      | error e =>
        have hres : produceLoop w sel topic key value (fuel + 1) i s p
            = some (some .produceFailed,
                { p with topicPartitioner := mapDel topic p.topicPartitioner,
                         calls := .warnNoPartition :: .delete topic :: .partition key ::
                           p.calls }) := by
          conv_lhs => unfold produceLoop
          simp only [hi2, if_true, hp]
        exact ⟨[], _, hres, rfl, Or.inr ⟨by simpa using hi, rfl⟩⟩
      | ok q =>
        have hJ1 := hJpart s q s1 hJ hp
        obtain ⟨e, c1, hl, hI1⟩ := hbad p.client q hI
        have hnext : loopNext w sel topic key i s p
            = some (sel.skip s1 q,
                { p with client := c1,
                         calls := .skip q :: .leader topic q :: .partition key :: p.calls }) := by
          simp only [loopNext, hi2, if_true, hp, hl]
        rw [produceLoop_continue w sel topic key value fuel i s _ p _ hnext]
        have hreq : produceRequests c1.trace = produceRequests p.client.trace := by
          have := produceRequests_Leader w topic q p.client
          rw [hl] at this
          exact this
        obtain ⟨failed, p1, hres, hsent, hshape⟩ :=
          ih (i + 1) (sel.skip s1 q)
            { p with client := c1,
                     calls := .skip q :: .leader topic q :: .partition key :: p.calls }
            (hJskip s1 q hJ1) hI1 (by omega) (by omega)
        refine ⟨failed ++ [q], p1, hres, hsent.trans hreq, ?_⟩
        rcases hshape with ⟨hlen, hcalls⟩ | ⟨hlen, hcalls⟩
        · left
          refine ⟨?_, ?_⟩
          · rw [List.length_append, List.length_singleton]
            omega
          · rw [hcalls, skippedCalls_snoc]
        · right
          refine ⟨?_, ?_⟩
          · rw [List.length_append, List.length_singleton]
            omega
          · rw [hcalls, skippedCalls_snoc]
    · have hi2 : ¬ i < sel.count s := by rw [hcount s hJ]; exact hi
      have hres : produceLoop w sel topic key value (fuel + 1) i s p
          = some (some .produceFailed,
              { p with topicPartitioner := mapSet topic s p.topicPartitioner,
                       calls := .warnNoPartition :: p.calls }) := by
        conv_lhs => unfold produceLoop
        simp only [hi2, if_false]
      have hin2 : i = n := by omega
      exact ⟨[], _, hres, rfl, Or.inl ⟨by simpa using hin2, rfl⟩⟩

/-- Claim C5, amended. Partition retry and exhaustion. Let `Produce` enter its
loop with selector state `s0`, and let the selector have a constant `Count()`
equal to `n` (on the states `J` it runs through). First part: assume that
`Partition(key)` returns a partition that is still available (not passed to
`Skip`) whenever there is one and fails only when there is none, that `Skip`
removes the partition from the available ones, that every partition either
fails leader resolution or resolves to a leader on which `Do` succeeds
(`good`), and that some available partition is of the second kind. Then, with
enough iterations allowed, `Produce` returns nil, having skipped fewer than
`n` partitions, each one with a failed leader lookup, and then made exactly
one `Do`: the handle `b` of that request is the one `Leader` returned for the
`good` partition `g`, the request is the last event of the client trace, and
the trace holds exactly one produce request more than at loop entry. Second
part: if every leader lookup fails, `Produce` returns `ErrProduceFailed`
without any `Do` (the trace holds no further produce request), after at most
`n` iterations: either `n` iterations that each skipped a partition, or fewer
followed by one in which `Partition(key)` failed. -/
theorem produce_retry_and_exhaustion {S : Type} (w : World) (sel : Partitioner S)
    (topic : String) (key value : Bytes) (p : P S) (s0 : S) (p0 : P S) (n : Nat)
    (J : S → Prop) (I : C → Prop)
    (hentry : LoopEntry w sel topic p s0 p0) (hJ0 : J s0) (hI0 : I p0.client)
    (hcount : ∀ s, J s → sel.count s = n)
    (hJpart : ∀ s q s1, J s → sel.partition s key = (.ok q, s1) → J s1)
    (hJskip : ∀ s q, J s → J (sel.skip s q)) :
    (∀ (avail : S → List Int) (good : Int → Bool),
      (avail s0).length ≤ n →
      (∀ s q s1, J s → sel.partition s key = (.ok q, s1) →
        q ∈ avail s ∧ avail s1 = avail s) →
      (∀ s e s1, J s → sel.partition s key = (.error e, s1) → avail s = []) →
      (∀ s q, J s → avail (sel.skip s q) = (avail s).filter (fun x => decide (x ≠ q))) →
      (∀ c q, I c → good q = false →
        ∃ e c1, Leader w topic q c = (.error e, c1) ∧ I c1) →
      (∀ c q, I c → good q = true →
        ∃ b c1 resp, Leader w topic q c = (.ok b, c1) ∧
          w.produce c1.trace b topic q key value = .ok resp) →
      (∃ g ∈ avail s0, good g = true) →
      ∀ fuel, n ≤ fuel →
        ∃ failed g b resp p1 c c1,
          Produce w sel fuel topic key value p = some (none, p1) ∧
          (∀ q ∈ failed, good q = false) ∧ good g = true ∧ failed.length < n ∧
          I c ∧ Leader w topic g c = (.ok b, c1) ∧
          w.produce c1.trace b topic g key value = .ok resp ∧
          p1.client = { c1 with trace := Event.doProduce b topic g key value :: c1.trace } ∧
          produceRequests p1.client.trace = produceRequests p0.client.trace + 1 ∧
          p1.calls = warnings resp ++ (.doProduce b topic g :: .leader topic g ::
            .partition key :: (skippedCalls topic key failed ++ p0.calls))) ∧
    ((∀ c q, I c → ∃ e c1, Leader w topic q c = (.error e, c1) ∧ I c1) →
      ∀ fuel, n < fuel →
        ∃ failed p1,
          Produce w sel fuel topic key value p = some (some .produceFailed, p1) ∧
          produceRequests p1.client.trace = produceRequests p0.client.trace ∧
          (failed.length = n ∧
              p1.calls = .warnNoPartition :: (skippedCalls topic key failed ++ p0.calls) ∨
            failed.length < n ∧
              p1.calls = .warnNoPartition :: .delete topic :: .partition key ::
                (skippedCalls topic key failed ++ p0.calls))) := by
  constructor
  · intro avail good hlen hpart hnone hskip hbad hgood hg fuel hfuel
    rw [produce_of_entry w sel topic key value p s0 p0 hentry]
    obtain ⟨failed, g, b, resp, p1, c, c1, hres, hfailed, hg1, hcnt, hIc, hl, hdo, hclient,
        hsent, hcalls⟩ :=
      produceLoop_retry w sel topic key value n J I avail good hcount hJpart hJskip hpart
        hnone hskip hbad hgood fuel 0 s0 p0 hJ0 hI0 (by omega) (by omega) hg
    exact ⟨failed, g, b, resp, p1, c, c1, hres, hfailed, hg1, by omega, hIc, hl, hdo, hclient,
      hsent, hcalls⟩
  · intro hbad fuel hfuel
    rw [produce_of_entry w sel topic key value p s0 p0 hentry]
    obtain ⟨failed, p1, hres, hsent, hshape⟩ :=
      produceLoop_exhaust w sel topic key value n J I hcount hJpart hJskip hbad
        fuel 0 s0 p0 hJ0 hI0 (Nat.zero_le _) (by omega)
    refine ⟨failed, p1, hres, hsent, ?_⟩
    rcases hshape with ⟨h1, h2⟩ | ⟨h1, h2⟩
    · exact Or.inl ⟨by omega, h2⟩
    · exact Or.inr ⟨by omega, h2⟩

/-! ### The selector `firstFit` and the worlds of the examples -/

theorem firstFit_partition_ok (s s1 : List Int × List Int) (key : Bytes) (q : Int)
    (h : firstFit.partition s key = (.ok q, s1)) :
    s1 = s ∧ q ∈ s.1.filter (fun x => decide (x ∉ s.2)) := by
  simp only [firstFit] at h
  split at h
  · cases h
  · rename_i q1 rest heq
    simp only [Prod.mk.injEq, Except.ok.injEq] at h
    obtain ⟨h1, h2⟩ := h
    subst h1 h2
    refine ⟨rfl, ?_⟩
    rw [heq]
    exact List.mem_cons_self _ _

theorem firstFit_partition_error (s s1 : List Int × List Int) (key : Bytes) (e : Err)
    (h : firstFit.partition s key = (.error e, s1)) :
    s.1.filter (fun x => decide (x ∉ s.2)) = [] := by
  simp only [firstFit] at h
  split at h
  · assumption
  · cases h

theorem firstFit_skip (s : List Int × List Int) (q : Int) :
    (firstFit.skip s q).1.filter (fun x => decide (x ∉ (firstFit.skip s q).2))
      = (s.1.filter (fun x => decide (x ∉ s.2))).filter (fun x => decide (x ≠ q)) := by
  simp only [firstFit, List.filter_filter]
  congr 1
  funext x
  simp only [List.mem_cons, not_or]
  by_cases h1 : x = q <;> by_cases h2 : x ∈ s.2 <;> simp [h1, h2]

theorem Leader_of_metadata_error (w : World) (topic : String) (q : Int) (c : C) (e : Err)
    (hmiss : mapGet (topic, q) c.topicPartitionLeader = none) (hne : c.brokers ≠ [])
    (herr : ∀ tr b, w.topicMetadata tr b topic = .error e) :
    ∃ c1, Leader w topic q c = (.error e, c1) ∧ SameMaps c c1 := by
  obtain ⟨b, _, hb⟩ := getAnyBroker_of_nonempty w c hne
  have hm := getTopicMetadata_of_broker w topic c c b false hb
  rw [herr] at hm
  refine ⟨closeIf false b { c with trace := Event.doTopicMetadata b topic :: c.trace }, ?_, ?_⟩
  · simp only [Leader, hmiss, updateFromTopicMetadata, hm]
  · exact ⟨rfl, rfl, rfl, rfl, rfl⟩

theorem produce_retry_and_exhaustion_witness :
    (∃ failed g b resp p1 c c1,
      Produce quietWorld firstFit 3 "t" [] [] tProducer = some (none, p1) ∧
      (∀ q ∈ failed, decide (q = 1 ∨ q = 2) = false) ∧ decide (g = 1 ∨ g = 2) = true ∧
      failed.length < 3 ∧
      (c.brokers = leaderClient.brokers ∧
        c.topicPartitionLeader = leaderClient.topicPartitionLeader) ∧
      Leader quietWorld "t" g c = (.ok b, c1) ∧
      quietWorld.produce c1.trace b "t" g [] [] = .ok resp ∧
      p1.client = { c1 with trace := Event.doProduce b "t" g [] [] :: c1.trace } ∧
      produceRequests p1.client.trace = produceRequests tProducer.client.trace + 1 ∧
      p1.calls = warnings resp ++ (.doProduce b "t" g :: .leader "t" g ::
        .partition [] :: (skippedCalls "t" [] failed ++ tProducer.calls))) ∧
    (∃ failed p1,
      Produce quietWorld firstFit 4 "t" [] [] noLeaderProducer
        = some (some .produceFailed, p1) ∧
      produceRequests p1.client.trace = produceRequests noLeaderProducer.client.trace ∧
      (failed.length = 3 ∧
          p1.calls = .warnNoPartition ::
            (skippedCalls "t" [] failed ++ noLeaderProducer.calls) ∨
        failed.length < 3 ∧
          p1.calls = .warnNoPartition :: .delete "t" :: .partition [] ::
            (skippedCalls "t" [] failed ++ noLeaderProducer.calls))) :=
  ⟨(produce_retry_and_exhaustion quietWorld firstFit "t" [] [] tProducer ([0, 1, 2], [])
      tProducer 3 (fun s => s.1 = [0, 1, 2])
      (fun c => c.brokers = leaderClient.brokers ∧
        c.topicPartitionLeader = leaderClient.topicPartitionLeader)
      (Or.inl ⟨rfl, rfl⟩) rfl ⟨rfl, rfl⟩
      (fun s hs => by simp [firstFit, hs])
      (fun s q s1 hs h => by rw [(firstFit_partition_ok s s1 [] q h).1]; exact hs)
      (fun s q hs => hs)).1
      (fun s => s.1.filter (fun x => decide (x ∉ s.2)))
      (fun q => decide (q = 1 ∨ q = 2))
      (by decide)
      (fun s q s1 _ h => ⟨(firstFit_partition_ok s s1 [] q h).2,
        by rw [(firstFit_partition_ok s s1 [] q h).1]⟩)
      (fun s e s1 _ h => firstFit_partition_error s s1 [] e h)
      (fun s q _ => firstFit_skip s q)
      (fun c q hc hq => by
        have hq2 : q ≠ 1 ∧ q ≠ 2 := by simpa using hq
        have hmiss : mapGet ("t", q) c.topicPartitionLeader = none := by
          rw [hc.2]
          simp [leaderClient, mapGet, Ne.symm hq2.1, Ne.symm hq2.2]
        have hne : c.brokers ≠ [] := by rw [hc.1]; simp [leaderClient]
        obtain ⟨c1, h1, h2⟩ := Leader_of_metadata_error quietWorld "t" q c .conn hmiss hne
          (fun _ _ => rfl)
        exact ⟨.conn, c1, h1, h2.1.trans hc.1, h2.2.2.1.trans hc.2⟩)
      (fun c q hc hq => by
        have hq2 : q = 1 ∨ q = 2 := by simpa using hq
        rcases hq2 with h | h
        · subst h
          exact ⟨⟨1, "h:1"⟩, c, [], by simp [Leader, hc.2, leaderClient, mapGet], rfl⟩
        · subst h
          exact ⟨⟨2, "h:2"⟩, c, [], by simp [Leader, hc.2, leaderClient, mapGet], rfl⟩)
      ⟨1, by decide, by decide⟩ 3 (Nat.le_refl _),
   (produce_retry_and_exhaustion quietWorld firstFit "t" [] [] noLeaderProducer
      ([0, 1, 2], []) noLeaderProducer 3 (fun s => s.1 = [0, 1, 2])
      (fun c => c.brokers = cachedClient.brokers ∧ c.topicPartitionLeader = [])
      (Or.inl ⟨rfl, rfl⟩) rfl ⟨rfl, rfl⟩
      (fun s hs => by simp [firstFit, hs])
      (fun s q s1 hs h => by rw [(firstFit_partition_ok s s1 [] q h).1]; exact hs)
      (fun s q hs => hs)).2
      (fun c q hc => by
        have hmiss : mapGet ("t", q) c.topicPartitionLeader = none := by
          rw [hc.2]
          rfl
        have hne : c.brokers ≠ [] := by rw [hc.1]; simp [cachedClient, knownClient]
        obtain ⟨c1, h1, h2⟩ := Leader_of_metadata_error quietWorld "t" q c .conn hmiss hne
          (fun _ _ => rfl)
        exact ⟨.conn, c1, h1, h2.1.trans hc.1, h2.2.2.1.trans hc.2⟩)
      4 (Nat.lt_succ_self _)⟩

/-- Claim C5, counterexample. The selector `firstFit` returns only partitions
not passed to `Skip` and its `Count()` is 3, the number of partitions of `t`.
In `flakyWorld`, from `leaderClient`, leader resolution fails for partition 0
and succeeds for partitions 1 and 2, and `Do` succeeds on the leader of
partition 2. `Produce` skips partition 0, selects partition 1, whose leader
resolves but whose `Do` fails with `ErrConn`, and returns that error instead of
nil; the only produce request went to the leader of partition 1. -/
theorem produce_retry_stops_at_failing_send :
    firstFit.count ([0, 1, 2], []) = 3 ∧
    (Leader flakyWorld "t" 0 leaderClient).1 = .error .conn ∧
    (Leader flakyWorld "t" 2 leaderClient).1 = .ok ⟨2, "h:2"⟩ ∧
    flakyWorld.produce [] ⟨2, "h:2"⟩ "t" 2 [] [] = .ok [] ∧
    (Produce flakyWorld firstFit 4 "t" [] [] tProducer).map (fun r => (r.1, r.2.calls))
      = some (some .conn,
          [.leaderIsDown "t" 1, .skip 1, .doProduce ⟨1, "h:1"⟩ "t" 1, .leader "t" 1,
            .partition [], .skip 0, .leader "t" 0, .partition []]) := by
  decide

/-! ## Pooled broker connection -/

/-- The log and the pool left by `Do` on a handle without pool. -/
theorem PoolBroker.Do_of_no_pool (w : PoolWorld) (hasResp : Bool) (b : PoolBroker)
    (hp : b.p = none) :
    ∃ evs res,
      (PoolBroker.Do w hasResp b).2.log = evs ++ b.log ∧
      evs.filter isNewChannelPool = [PoolEvent.newChannelPool 0 b.MaxCap b.addr res] ∧
      (PoolBroker.Do w hasResp b).2.p = res ∧
      ((∃ pool conn, PoolEvent.newChannelPool 0 b.MaxCap b.addr (some pool) ∈ evs ∧
          PoolEvent.get pool (some conn) ∈ evs ∧ PoolEvent.send conn true ∈ evs ∧
          (hasResp = true → PoolEvent.receive conn true ∈ evs)) →
        (PoolBroker.Do w hasResp b).1 = none) := by
  cases h1 : w.newChannelPool b.log 0 b.MaxCap b.addr with
  | some e =>
    refine ⟨[.newChannelPool 0 b.MaxCap b.addr none], none, ?_, ?_, ?_, ?_⟩
    · simp [PoolBroker.Do, PoolBroker.ensurePool, hp, h1]
    · simp [isNewChannelPool]
    · simp [PoolBroker.Do, PoolBroker.ensurePool, hp, h1]
    · simp
  | none =>
    cases h2 : w.get (.newChannelPool 0 b.MaxCap b.addr (some b.log.length) :: b.log)
        b.log.length with
    | some e =>
      refine ⟨[.get b.log.length none,
        .newChannelPool 0 b.MaxCap b.addr (some b.log.length)], some b.log.length,
        ?_, ?_, ?_, ?_⟩
      · simp [PoolBroker.Do, PoolBroker.ensurePool, hp, h1, h2]
      · simp [isNewChannelPool]
      · simp [PoolBroker.Do, PoolBroker.ensurePool, hp, h1, h2]
      · simp
    | none =>
      cases h3 : w.setWriteDeadline
          (.get b.log.length (some (b.log.length + 1)) ::
            .newChannelPool 0 b.MaxCap b.addr (some b.log.length) :: b.log)
          (b.log.length + 1) with
      | some e =>
        refine ⟨[.connClose (b.log.length + 1), .setWriteDeadline (b.log.length + 1) false,
          .get b.log.length (some (b.log.length + 1)),
          .newChannelPool 0 b.MaxCap b.addr (some b.log.length)], some b.log.length,
          ?_, ?_, ?_, ?_⟩
        · simp [PoolBroker.Do, PoolBroker.ensurePool, PoolBroker.exchange, hp, h1, h2, h3]
        · simp [isNewChannelPool]
        · simp [PoolBroker.Do, PoolBroker.ensurePool, PoolBroker.exchange, hp, h1, h2, h3]
        · simp
      | none =>
        cases h4 : w.send
            (.setWriteDeadline (b.log.length + 1) true ::
              .get b.log.length (some (b.log.length + 1)) ::
              .newChannelPool 0 b.MaxCap b.addr (some b.log.length) :: b.log)
            (b.log.length + 1) with
        | some e =>
          refine ⟨[.connClose (b.log.length + 1), .send (b.log.length + 1) false,
            .setWriteDeadline (b.log.length + 1) true,
            .get b.log.length (some (b.log.length + 1)),
            .newChannelPool 0 b.MaxCap b.addr (some b.log.length)], some b.log.length,
            ?_, ?_, ?_, ?_⟩
          · simp [PoolBroker.Do, PoolBroker.ensurePool, PoolBroker.exchange, hp, h1, h2, h3, h4]
          · simp [isNewChannelPool]
          · simp [PoolBroker.Do, PoolBroker.ensurePool, PoolBroker.exchange, hp, h1, h2, h3, h4]
          · simp
        | none =>
          cases hasResp with
          | false =>
            refine ⟨[.connClose (b.log.length + 1), .send (b.log.length + 1) true,
              .setWriteDeadline (b.log.length + 1) true,
              .get b.log.length (some (b.log.length + 1)),
              .newChannelPool 0 b.MaxCap b.addr (some b.log.length)], some b.log.length,
              ?_, ?_, ?_, ?_⟩
            · simp [PoolBroker.Do, PoolBroker.ensurePool, PoolBroker.exchange, hp, h1, h2, h3,
                h4]
            · simp [isNewChannelPool]
            · simp [PoolBroker.Do, PoolBroker.ensurePool, PoolBroker.exchange, hp, h1, h2, h3,
                h4]
            · intro _
              simp [PoolBroker.Do, PoolBroker.ensurePool, PoolBroker.exchange, hp, h1, h2, h3,
                h4]
          | true =>
            cases h5 : w.setReadDeadline
                (.send (b.log.length + 1) true ::
                  .setWriteDeadline (b.log.length + 1) true ::
                  .get b.log.length (some (b.log.length + 1)) ::
                  .newChannelPool 0 b.MaxCap b.addr (some b.log.length) :: b.log)
                (b.log.length + 1) with
            | some e =>
              refine ⟨[.connClose (b.log.length + 1),
                .setReadDeadline (b.log.length + 1) false, .send (b.log.length + 1) true,
                .setWriteDeadline (b.log.length + 1) true,
                .get b.log.length (some (b.log.length + 1)),
                .newChannelPool 0 b.MaxCap b.addr (some b.log.length)], some b.log.length,
                ?_, ?_, ?_, ?_⟩
              · simp [PoolBroker.Do, PoolBroker.ensurePool, PoolBroker.exchange, hp, h1, h2,
                  h3, h4, h5]
              · simp [isNewChannelPool]
              · simp [PoolBroker.Do, PoolBroker.ensurePool, PoolBroker.exchange, hp, h1, h2,
                  h3, h4, h5]
              · simp
            | none =>
              cases h6 : w.receive
                  (.setReadDeadline (b.log.length + 1) true ::
                    .send (b.log.length + 1) true ::
                    .setWriteDeadline (b.log.length + 1) true ::
                    .get b.log.length (some (b.log.length + 1)) ::
                    .newChannelPool 0 b.MaxCap b.addr (some b.log.length) :: b.log)
                  (b.log.length + 1) with
              | some e =>
                refine ⟨[.connClose (b.log.length + 1),
                  .receive (b.log.length + 1) false,
                  .setReadDeadline (b.log.length + 1) true, .send (b.log.length + 1) true,
                  .setWriteDeadline (b.log.length + 1) true,
                  .get b.log.length (some (b.log.length + 1)),
                  .newChannelPool 0 b.MaxCap b.addr (some b.log.length)], some b.log.length,
                  ?_, ?_, ?_, ?_⟩
                · simp [PoolBroker.Do, PoolBroker.ensurePool, PoolBroker.exchange, hp, h1, h2,
                    h3, h4, h5, h6]
                · simp [isNewChannelPool]
                · simp [PoolBroker.Do, PoolBroker.ensurePool, PoolBroker.exchange, hp, h1, h2,
                    h3, h4, h5, h6]
                · simp
              | none =>
                refine ⟨[.connClose (b.log.length + 1),
                  .receive (b.log.length + 1) true,
                  .setReadDeadline (b.log.length + 1) true, .send (b.log.length + 1) true,
                  .setWriteDeadline (b.log.length + 1) true,
                  .get b.log.length (some (b.log.length + 1)),
                  .newChannelPool 0 b.MaxCap b.addr (some b.log.length)], some b.log.length,
                  ?_, ?_, ?_, ?_⟩
                · simp [PoolBroker.Do, PoolBroker.ensurePool, PoolBroker.exchange, hp, h1, h2,
                    h3, h4, h5, h6]
                · simp [isNewChannelPool]
                · simp [PoolBroker.Do, PoolBroker.ensurePool, PoolBroker.exchange, hp, h1, h2,
                    h3, h4, h5, h6]
                · intro _
                  simp [PoolBroker.Do, PoolBroker.ensurePool, PoolBroker.exchange, hp, h1, h2,
                    h3, h4, h5, h6]

/-- The result of `Do` on a handle without pool in terms of the answers of
the world: nil exactly when every call is answered without error, and the new
pool is stored exactly when the pool factory succeeds. -/
theorem PoolBroker.Do_result_of_no_pool (w : PoolWorld) (hasResp : Bool) (b : PoolBroker)
    (hp : b.p = none) :
    ((PoolBroker.Do w hasResp b).1 = none ↔ PoolBroker.allSucceed w hasResp b) ∧
    (PoolBroker.allSucceed w hasResp b →
      (PoolBroker.Do w hasResp b).2
        = { b with p := some b.log.length, log := PoolBroker.doneLog hasResp b }) ∧
    (w.newChannelPool b.log 0 b.MaxCap b.addr = none →
      (PoolBroker.Do w hasResp b).2.p = some b.log.length) ∧
    (∀ err, w.newChannelPool b.log 0 b.MaxCap b.addr = some err →
      PoolBroker.Do w hasResp b
        = (some err,
            { b with p := none,
                     log := .newChannelPool 0 b.MaxCap b.addr none :: b.log })) := by
  cases h1 : w.newChannelPool b.log 0 b.MaxCap b.addr with
  | some e =>
    simp [PoolBroker.Do, PoolBroker.ensurePool, PoolBroker.allSucceed, hp, h1]
  | none =>
    cases h2 : w.get (.newChannelPool 0 b.MaxCap b.addr (some b.log.length) :: b.log)
        b.log.length with
    | some e =>
      simp [PoolBroker.Do, PoolBroker.ensurePool, PoolBroker.allSucceed, hp, h1, h2]
    | none =>
      cases h3 : w.setWriteDeadline
          (.get b.log.length (some (b.log.length + 1)) ::
            .newChannelPool 0 b.MaxCap b.addr (some b.log.length) :: b.log)
          (b.log.length + 1) with
      | some e =>
        simp [PoolBroker.Do, PoolBroker.ensurePool, PoolBroker.exchange, PoolBroker.allSucceed,
          hp, h1, h2, h3]
      | none =>
        cases h4 : w.send
            (.setWriteDeadline (b.log.length + 1) true ::
              .get b.log.length (some (b.log.length + 1)) ::
              .newChannelPool 0 b.MaxCap b.addr (some b.log.length) :: b.log)
            (b.log.length + 1) with
        | some e =>
          simp [PoolBroker.Do, PoolBroker.ensurePool, PoolBroker.exchange,
            PoolBroker.allSucceed, hp, h1, h2, h3, h4]
        | none =>
          cases hasResp with
          | false =>
            simp [PoolBroker.Do, PoolBroker.ensurePool, PoolBroker.exchange,
              PoolBroker.allSucceed, PoolBroker.doneLog, hp, h1, h2, h3, h4]
          | true =>
            cases h5 : w.setReadDeadline
                (.send (b.log.length + 1) true ::
                  .setWriteDeadline (b.log.length + 1) true ::
                  .get b.log.length (some (b.log.length + 1)) ::
                  .newChannelPool 0 b.MaxCap b.addr (some b.log.length) :: b.log)
                (b.log.length + 1) with
            | some e =>
              simp [PoolBroker.Do, PoolBroker.ensurePool, PoolBroker.exchange,
                PoolBroker.allSucceed, hp, h1, h2, h3, h4, h5]
            | none =>
              cases h6 : w.receive
                  (.setReadDeadline (b.log.length + 1) true ::
                    .send (b.log.length + 1) true ::
                    .setWriteDeadline (b.log.length + 1) true ::
                    .get b.log.length (some (b.log.length + 1)) ::
                    .newChannelPool 0 b.MaxCap b.addr (some b.log.length) :: b.log)
                  (b.log.length + 1) with
              | some e =>
                simp [PoolBroker.Do, PoolBroker.ensurePool, PoolBroker.exchange,
                  PoolBroker.allSucceed, hp, h1, h2, h3, h4, h5, h6]
              | none =>
                simp [PoolBroker.Do, PoolBroker.ensurePool, PoolBroker.exchange,
                  PoolBroker.allSucceed, PoolBroker.doneLog, hp, h1, h2, h3, h4, h5, h6]

/-- Claim C8. Pool idempotent close. `Close` on a handle without pool changes
nothing (no call is logged); `Close` twice is `Close` once; after `Close` the
pool is absent. A `Do` after `Close` makes exactly one call of the pool
factory, with initial capacity 0 and maximum capacity `MaxCap`, and the pool
the handle holds afterwards is the result of that call: the new pool when the
factory succeeds (whatever happens later in the exchange), none when it fails,
in which case `Do` returns the error of the factory. `Do` returns nil exactly
when every call it makes is answered without error (pool creation,
connection acquisition, the send with its write deadline and, when a response
is expected, the receive with its read deadline); the state it leaves is then
the new pool and the log of the complete exchange. In terms of the calls `Do`
has made: it returns nil whenever its pool creation, its connection
acquisition, its send and, when a response is expected, its receive
succeeded. -/
theorem pool_idempotent_close (w : PoolWorld) (hasResp : Bool) (b : PoolBroker) :
    (b.p = none → b.Close = b) ∧
    b.Close.Close = b.Close ∧
    b.Close.p = none ∧
    (∃ evs res,
      (PoolBroker.Do w hasResp b.Close).2.log = evs ++ b.Close.log ∧
      evs.filter isNewChannelPool = [PoolEvent.newChannelPool 0 b.MaxCap b.addr res] ∧
      (PoolBroker.Do w hasResp b.Close).2.p = res ∧
      ((∃ pool conn, PoolEvent.newChannelPool 0 b.MaxCap b.addr (some pool) ∈ evs ∧
          PoolEvent.get pool (some conn) ∈ evs ∧ PoolEvent.send conn true ∈ evs ∧
          (hasResp = true → PoolEvent.receive conn true ∈ evs)) →
        (PoolBroker.Do w hasResp b.Close).1 = none)) ∧
    ((PoolBroker.Do w hasResp b.Close).1 = none ↔
      PoolBroker.allSucceed w hasResp b.Close) ∧
    (PoolBroker.allSucceed w hasResp b.Close →
      (PoolBroker.Do w hasResp b.Close).2
        = { b.Close with p := some b.Close.log.length,
                         log := PoolBroker.doneLog hasResp b.Close }) ∧
    (w.newChannelPool b.Close.log 0 b.MaxCap b.addr = none →
      (PoolBroker.Do w hasResp b.Close).2.p = some b.Close.log.length) ∧
    (∀ err, w.newChannelPool b.Close.log 0 b.MaxCap b.addr = some err →
      PoolBroker.Do w hasResp b.Close
        = (some err,
            { b.Close with p := none,
                           log := .newChannelPool 0 b.MaxCap b.addr none ::
                             b.Close.log })) := by
  have hnone : ∀ b1 : PoolBroker, b1.p = none → b1.Close = b1 := by
    intro b1 h
    unfold PoolBroker.Close
    rw [h]
  have hclose : b.Close.p = none := by
    cases h : b.p with
    | none => simp [PoolBroker.Close, h]
    | some p => simp [PoolBroker.Close, h]
  have hcap : b.Close.MaxCap = b.MaxCap ∧ b.Close.addr = b.addr := by
    cases h : b.p with
    | none => simp [PoolBroker.Close, h]
    | some p => simp [PoolBroker.Close, h]
  have hlog := PoolBroker.Do_of_no_pool w hasResp b.Close hclose
  have hres := PoolBroker.Do_result_of_no_pool w hasResp b.Close hclose
  rw [hcap.1, hcap.2] at hlog
  refine ⟨hnone b, hnone b.Close hclose, hclose, hlog, hres.1, hres.2.1, ?_, ?_⟩
  · rw [← hcap.1, ← hcap.2]
    exact hres.2.2.1
  · rw [← hcap.1, ← hcap.2]
    exact hres.2.2.2

theorem pool_idempotent_close_witness :
    (NewPoolBroker "h:1").Close = NewPoolBroker "h:1" ∧
    (PoolBroker.Do calmPool true pooledBroker.Close).2
      = { pooledBroker.Close with p := some 2,
                                  log := PoolBroker.doneLog true pooledBroker.Close } ∧
    (PoolBroker.Do calmPool true pooledBroker.Close).2.p = some 2 ∧
    PoolBroker.Do noPoolWorld true pooledBroker.Close
      = (some (.other 1),
          { pooledBroker.Close with
            p := none,
            log := .newChannelPool 0 10 "h:1" none :: pooledBroker.Close.log }) ∧
    (PoolBroker.Do lateWorld true pooledBroker.Close).1 ≠ none ∧
    (PoolBroker.Do calmPool true pooledBroker.Close).1 = none := by
  refine ⟨(pool_idempotent_close calmPool true (NewPoolBroker "h:1")).1 rfl,
    (pool_idempotent_close calmPool true pooledBroker).2.2.2.2.2.1
      ⟨rfl, rfl, rfl, rfl, fun _ => ⟨rfl, rfl⟩⟩,
    (pool_idempotent_close calmPool true pooledBroker).2.2.2.2.2.2.1 rfl,
    (pool_idempotent_close noPoolWorld true pooledBroker).2.2.2.2.2.2.2 (.other 1) rfl,
    fun h => ?_, ?_⟩
  · have hall := (pool_idempotent_close lateWorld true pooledBroker).2.2.2.2.1.1 h
    have hwd := hall.2.2.1
    cases hwd
  obtain ⟨evs, res, hlog, _, _, hok⟩ :=
    (pool_idempotent_close calmPool true pooledBroker).2.2.2.1
  have hevs : evs = [.connClose 3, .receive 3 true, .setReadDeadline 3 true, .send 3 true,
      .setWriteDeadline 3 true, .get 2 (some 3), .newChannelPool 0 10 "h:1" (some 2)] :=
    List.append_cancel_right (hlog.symm.trans (by decide))
  subst hevs
  exact hok ⟨2, 3, by decide, by decide, by decide, fun _ => by decide⟩

end Kafka
